import Mathlib

/-!
Verification of the Viva Real scraping pipeline (guihp/scrapping-viva-real).

This file gives a shallow embedding of the data-cleaning and extraction-merge
logic of the repository:

* `src/validators.py`  — `normalize_text`, `normalize_zipcode`,
  `validate_price`, `validate_int_value`, `validate_url`, `clean_location`,
  `clean_data`;
* `src/extractors.py`  — the image-strategy merge of `extract_images` and the
  map-link / AI-merge tail of `extract_location`;
* `src/scraper.py`     — the record assembly and re-extraction logic of
  `VivaRealScraper.scrape`.

Python values flowing through the cleaner are modelled by the inductive type
`RawVal` (None, int, float, str, list, dict).  Python floats are modelled by
`PFloat`: a finite rational, NaN, or a signed infinity; the places where the
CPython runtime would raise (`int(nan)`, `int(inf)`) are modelled by `Except`.
String/number rendering of non-string values (`str(x)` on lists, dicts and
finite floats) is approximated — no theorem below depends on it, every
statement exercising `str` does so on strings, where the model is exact.
-/

namespace VivaReal

/-! ## Python floats -/

/-- Model of a CPython float: a finite value (idealised as a rational),
NaN, or a signed infinity. -/
inductive PFloat where
  | finite (q : ℚ)
  | nan
  | inf
  | ninf
deriving DecidableEq, Repr

/-- Python `x >= 0` on a float: NaN compares false. -/
def PFloat.ge0 : PFloat → Bool
  | .finite q => decide (0 ≤ q)
  | .nan => false
  | .inf => true
  | .ninf => false

/-- Python `int(x)` truncation toward zero on a finite float. -/
def pyTrunc (q : ℚ) : Int :=
  if 0 ≤ q then ⌊q⌋ else -⌊-q⌋

/-! ## Python values -/

/-- Model of the Python values that can sit in a raw scraped record:
`None`, `int`, `float`, `str`, `list`, `dict` (string keys). -/
inductive RawVal where
  | none
  | int (n : Int)
  | float (x : PFloat)
  | str (s : String)
  | list (l : List RawVal)
  | dict (entries : List (String × RawVal))

/-- Python truthiness (`bool(x)`) on a `RawVal`. -/
def pyTruthy : RawVal → Bool
  | .none => false
  | .int n => n != 0
  | .float (.finite q) => q != 0
  | .float _ => true
  | .str s => !s.data.isEmpty
  | .list l => !l.isEmpty
  | .dict d => !d.isEmpty

/-- Python `d.get(k)` on a dict modelled as an association list
(first binding wins, matching unique-key Python dicts). -/
def dictGet (entries : List (String × RawVal)) (k : String) : RawVal :=
  match entries.find? (fun e => e.1 == k) with
  | some e => e.2
  | none => .none

/-- Python `str(x)`.  Exact on strings, ints and None; the rendering of
floats, lists and dicts is an approximation (no theorem depends on it). -/
def pyStr : RawVal → String
  | .str s => s
  | .int n => toString n
  | .none => "None"
  | .float (.finite q) => toString q
  | .float .nan => "nan"
  | .float .inf => "inf"
  | .float .ninf => "-inf"
  | .list _ => "[...]"
  | .dict _ => "{...}"

/-! ## Character-list string primitives

The validators are specified over `List Char` (the `.data` of a `String`)
so that their properties can be proved by list induction. -/

/-- Whitespace test used to model Python `str.split()` / `str.strip()`. -/
def isWs (c : Char) : Bool := c.isWhitespace

/-- Python `s.strip()` on a character list. -/
def stripL (l : List Char) : List Char :=
  ((l.dropWhile isWs).reverse.dropWhile isWs).reverse

/-- Python `s.strip()`. -/
def pyStrip (s : String) : String := ⟨stripL s.data⟩

theorem length_dropWhile_le (p : α → Bool) (l : List α) :
    (l.dropWhile p).length ≤ l.length := by
  induction l with
  | nil => simp
  | cons a l ih =>
    rw [List.dropWhile_cons]
    split
    · exact Nat.le_succ_of_le ih
    · simp

/-- Python `s.split()` — maximal runs of non-whitespace characters. -/
def pyWords : List Char → List (List Char)
  | [] => []
  | c :: cs =>
    if isWs c then pyWords cs
    else (c :: cs.takeWhile (fun d => !isWs d)) :: pyWords (cs.dropWhile (fun d => !isWs d))
termination_by l => l.length
decreasing_by
  · simp
  · simpa [Nat.lt_succ_iff] using length_dropWhile_le (fun d => !isWs d) cs

/-- Python `' '.join(ws)` on word lists. -/
def joinWords : List (List Char) → List Char
  | [] => []
  | [w] => w
  | w :: ws => w ++ ' ' :: joinWords ws

/-- Boolean prefix test on character lists. -/
def isPre : List Char → List Char → Bool
  | [], _ => true
  | _ :: _, [] => false
  | a :: as, b :: bs => a == b && isPre as bs

/-- Boolean substring test: Python `pat in s` on character lists. -/
def hasSubL (pat : List Char) : List Char → Bool
  | [] => pat.isEmpty
  | c :: l => isPre pat (c :: l) || hasSubL pat l

/-- Python `pat in s` on strings. -/
def pyIn (pat s : String) : Bool := hasSubL pat.data s.data

/-- Python `s.lower()` (ASCII letters; the source only lowercases URLs). -/
def pyLower (s : String) : String := ⟨s.data.map Char.toLower⟩

/-- Python `s.startswith(p)`. -/
def pyStarts (s p : String) : Bool := isPre p.data s.data

/-- The natural number denoted by a list of decimal digit characters. -/
def natOfDigits (l : List Char) : Nat :=
  l.foldl (fun acc c => acc * 10 + (c.toNat - '0'.toNat)) 0

/-! ## validators.py : normalize_text -/

/-- `validators.normalize_text` (validators.py lines 9-19): collapse
whitespace runs to single spaces, strip, degrade empty/falsy to `None`. -/
def normalize_text (v : RawVal) : Option String :=
  if !pyTruthy v then none
  else
    let text := pyStr v
    let text : String := ⟨joinWords (pyWords text.data)⟩
    let text := pyStrip text
    if text.data.isEmpty then none else some text

/-! ## validators.py : normalize_zipcode -/

/-- `validators.normalize_zipcode` (validators.py lines 22-31): strip
non-digits; 8 digits format as `DDDDD-DDD`, 7 digits as `DDDD-DDD`,
anything else degrades to `None`. -/
def normalize_zipcode (v : RawVal) : Option String :=
  if !pyTruthy v then none
  else
    let digits := (pyStr v).data.filter Char.isDigit
    if digits.length = 8 then
      some ⟨digits.take 5 ++ '-' :: digits.drop 5⟩
    else if digits.length = 7 then
      some ⟨digits.take 4 ++ '-' :: digits.drop 4⟩
    else none

/-! ## validators.py : validate_price -/

/-- Python `float(s)` on a cleaned price string (digits and at most one
dot): `[digits] ['.' digits]`, at least one digit overall. -/
def pyParseFloat (l : List Char) : Option ℚ :=
  let intPart := l.takeWhile (fun c => c != '.')
  let rest := l.dropWhile (fun c => c != '.')
  let fracPart := rest.drop 1
  if intPart.all Char.isDigit && fracPart.all Char.isDigit &&
     (!intPart.isEmpty || !fracPart.isEmpty) &&
     (rest.isEmpty || rest.take 1 = ['.']) then
    some ((natOfDigits intPart : ℚ) + (natOfDigits fracPart : ℚ) / (10 : ℚ) ^ fracPart.length)
  else none

/-- `validators.validate_price` (validators.py lines 34-53): numbers pass
through when `>= 0`; strings are stripped to digits/dots/commas, commas
become dots, multiple dots are removed, then parsed; failures degrade
to `None`. -/
def validate_price (v : RawVal) : Option PFloat :=
  match v with
  | .none => none
  | .int n => if 0 ≤ n then some (.finite n) else none
  | .float f => if f.ge0 then some f else none
  | .str s =>
    let cl := s.data.filter (fun c => c.isDigit || c == '.' || c == ',')
    let cl := cl.map (fun c => if c == ',' then '.' else c)
    let cl := if 1 < (cl.filter (fun c => c == '.')).length then cl.filter (fun c => c != '.') else cl
    match pyParseFloat cl with
    | some q => if 0 ≤ q then some (.finite q) else none
    | none => none
  | _ => none

/-! ## validators.py : validate_int_value -/

/-- Bounds check shared by both branches of `validate_int_value`. -/
def intBounds (n : Int) (min_val : Int) (max_val : Option Int) : Option Int :=
  if min_val ≤ n then
    match max_val with
    | none => some n
    | some m => if n ≤ m then some n else none
  else none

/-- `validators.validate_int_value` (validators.py lines 56-76): numeric
inputs are truncated with Python `int()` — which raises on NaN/∞, the
only uncaught exception in the cleaner — and bounds-checked; strings are
reduced to their digit characters and parsed; all other failures degrade
to `None`. -/
def validate_int_value (v : RawVal) (min_val : Int) (max_val : Option Int) :
    Except String (Option Int) :=
  match v with
  | .none => .ok none
  | .int n => .ok (intBounds n min_val max_val)
  | .float (.finite q) => .ok (intBounds (pyTrunc q) min_val max_val)
  | .float .nan => .error "ValueError: cannot convert float NaN to integer"
  | .float .inf => .error "OverflowError: cannot convert float infinity to integer"
  | .float .ninf => .error "OverflowError: cannot convert float infinity to integer"
  | .str s =>
    let digits := s.data.filter Char.isDigit
    if digits.isEmpty then .ok none
    else .ok (intBounds (natOfDigits digits) min_val max_val)
  | _ => .ok none

/-! ## validators.py : validate_url

The URL regex of validators.py lines 86-92 is anchored on both sides, so
matching is membership in its language; the recognizer below decides that
language.  The host portion (letters, digits, dots, hyphens) cannot share
characters with what may follow it (`:`, `/`, `?`, end), so the split into
scheme/host/port/path is deterministic. -/

/-- Lower-case letter or digit (the regex runs with `re.IGNORECASE`;
matching is performed on the lowercased string). -/
def isAlnumL (c : Char) : Bool := c.isDigit || ('a' ≤ c && c ≤ 'z')

/-- Characters that may occur in the host portion of the regex. -/
def isHostChar (c : Char) : Bool := isAlnumL c || c == '.' || c == '-'

/-- One domain label: `[A-Z0-9](?:[A-Z0-9-]{0,61}[A-Z0-9])?`. -/
def isLabelL (l : List Char) : Bool :=
  !l.isEmpty && l.length ≤ 63 &&
  (l.take 1).all isAlnumL && (l.reverse.take 1).all isAlnumL &&
  l.all (fun c => isAlnumL c || c == '-')

/-- Top-level domain: `[A-Z]{2,6}`. -/
def isTldL (l : List Char) : Bool :=
  2 ≤ l.length && l.length ≤ 6 && l.all (fun c => 'a' ≤ c && c ≤ 'z')

/-- Split a character list on dots. -/
def splitDot : List Char → List (List Char)
  | [] => [[]]
  | c :: rest =>
    if c = '.' then [] :: splitDot rest
    else
      match splitDot rest with
      | w :: ws => (c :: w) :: ws
      | [] => [[c]]

/-- `(?:[A-Z0-9](?:[A-Z0-9-]{0,61}[A-Z0-9])?\.)+[A-Z]{2,6}` — labels
separated by dots ending in a TLD, without the optional trailing dot. -/
def isDomainCore (l : List Char) : Bool :=
  let parts := splitDot l
  2 ≤ parts.length && parts.dropLast.all isLabelL &&
  (match parts.getLast? with
   | some t => isTldL t
   | none => false)

/-- The full domain branch, with the optional trailing dot. -/
def isDomainL (l : List Char) : Bool :=
  match l.getLast? with
  | some '.' => isDomainCore l.dropLast
  | _ => isDomainCore l

/-- IP branch: `\d{1,3}\.\d{1,3}\.\d{1,3}\.\d{1,3}`. -/
def isIpL (l : List Char) : Bool :=
  let parts := splitDot l
  parts.length = 4 &&
  parts.all (fun p => 1 ≤ p.length && p.length ≤ 3 && p.all Char.isDigit)

/-- Host alternation: domain, `localhost`, or IP. -/
def isHostL (l : List Char) : Bool :=
  isDomainL l || l = "localhost".data || isIpL l

/-- Trailing path: `(?:/?|[/?]\S+)$`. -/
def urlPathOk : List Char → Bool
  | [] => true
  | ['/'] => true
  | '/' :: c :: rest => (c :: rest).all (fun d => !isWs d)
  | '?' :: c :: rest => (c :: rest).all (fun d => !isWs d)
  | _ => false

/-- The anchored URL regex of validators.py lines 86-92 (case-insensitive,
hence run on the lowercased input). -/
def matchesUrlPattern (url : String) : Bool :=
  let l := url.data.map Char.toLower
  let afterScheme : Option (List Char) :=
    if isPre "https://".data l then some (l.drop 8)
    else if isPre "http://".data l then some (l.drop 7)
    else none
  match afterScheme with
  | none => false
  | some rest =>
    let host := rest.takeWhile isHostChar
    let tail := rest.dropWhile isHostChar
    isHostL host &&
    (match tail with
     | ':' :: r =>
       !(r.takeWhile Char.isDigit).isEmpty && urlPathOk (r.dropWhile Char.isDigit)
     | r => urlPathOk r)

/-- `validators.validate_url` (validators.py lines 79-99): falsy inputs
degrade to `None`; the stripped string is kept when it matches the URL
regex; scheme-relative `//…` is completed with `https:`; site-relative
`/…` is prefixed with the Viva Real origin; anything else degrades to
`None`. -/
def validate_url (v : RawVal) : Option String :=
  if !pyTruthy v then none
  else
    let url := pyStrip (pyStr v)
    if matchesUrlPattern url then some url
    else if pyStarts url "//" then some ("https:" ++ url)
    else if pyStarts url "/" then some ("https://www.vivareal.com.br" ++ url)
    else none

/-! ## The location entity and validators.py : clean_location -/

/-- The location sub-entity: the seven optional string fields used both by
`extract_location` (extractors.py line 201) and by the cleaned record. -/
structure Loc where
  city : Option String := none
  neighborhood : Option String := none
  street : Option String := none
  number : Option String := none
  zipcode : Option String := none
  complement : Option String := none
  map_link : Option String := none
deriving DecidableEq, Repr

/-- `validators.clean_location` (validators.py lines 102-113), reading the
raw location dict through a getter. -/
def clean_location (get : String → RawVal) : Loc :=
  { city := normalize_text (get "city")
    neighborhood := normalize_text (get "neighborhood")
    street := normalize_text (get "street")
    number := normalize_text (get "number")
    zipcode := normalize_zipcode (get "zipcode")
    complement := normalize_text (get "complement")
    map_link := validate_url (get "map_link") }

/-! ## validators.py : clean_data -/

/-- A raw scraped record as consumed by `clean_data`: every field an
arbitrary Python value.  `clean_data` reads the input dict only through
`get(key)` (plus a `'location' in data` test conjoined with an
`isinstance(..., dict)` test, and a `get('images', [])` whose default is
only reachable when the key is absent and then behaves like the non-list
branch), so a missing key and a key bound to `None` are observationally
identical and are both modelled by `RawVal.none`. -/
structure RawRecord where
  url : RawVal := .none
  scraped_at : RawVal := .none
  property_type : RawVal := .none
  category : RawVal := .none
  modality : RawVal := .none
  price : RawVal := .none
  size_m2 : RawVal := .none
  bedrooms : RawVal := .none
  suites : RawVal := .none
  bathrooms : RawVal := .none
  garage : RawVal := .none
  location : RawVal := .none
  description : RawVal := .none
  advertiser_code : RawVal := .none
  vivareal_code : RawVal := .none
  images : RawVal := .none

/-- The cleaned output record produced by `clean_data`. -/
structure Record where
  url : Option String
  scraped_at : RawVal
  property_type : Option String
  category : Option String
  modality : Option String
  price : Option PFloat
  size_m2 : Option Int
  bedrooms : Option Int
  suites : Option Int
  bathrooms : Option Int
  garage : Option Int
  location : Loc
  description : Option String
  advertiser_code : Option String
  vivareal_code : Option String
  images : List String

/-- The image-list cleaning of validators.py lines 143-152: each entry is
URL-validated (failures dropped), then the list is truncated to 15. -/
def cleanImages (v : RawVal) : List String :=
  match v with
  | .list imgs => (imgs.filterMap validate_url).take 15
  | _ => []

/-- `validators.clean_data` (validators.py lines 116-154).  The only
failure is the uncaught `int()` exception of `validate_int_value` on a
non-finite float; all other rules degrade to absence. -/
def clean_data (d : RawRecord) : Except String Record := do
  let size_m2 ← validate_int_value d.size_m2 1 none
  let bedrooms ← validate_int_value d.bedrooms 0 none
  let suites ← validate_int_value d.suites 0 none
  let bathrooms ← validate_int_value d.bathrooms 0 none
  let garage ← validate_int_value d.garage 0 none
  .ok
    { url := validate_url d.url
      scraped_at := d.scraped_at
      property_type := normalize_text d.property_type
      category := if pyTruthy d.category then normalize_text d.category else none
      modality := normalize_text d.modality
      price := validate_price d.price
      size_m2 := size_m2
      bedrooms := bedrooms
      suites := suites
      bathrooms := bathrooms
      garage := garage
      location :=
        match d.location with
        | .dict entries => clean_location (dictGet entries)
        | _ => {}
      description := normalize_text d.description
      advertiser_code := normalize_text d.advertiser_code
      vivareal_code := normalize_text d.vivareal_code
      images := cleanImages d.images }

/-! ## Embedding a cleaned record back into a raw record -/

/-- An optional string as a Python value. -/
def optStrVal : Option String → RawVal
  | none => .none
  | some s => .str s

/-- An optional int as a Python value. -/
def optIntVal : Option Int → RawVal
  | none => .none
  | some n => .int n

/-- An optional float as a Python value. -/
def optFloatVal : Option PFloat → RawVal
  | none => .none
  | some f => .float f

/-- The entry list of the Python dict built by `clean_location`. -/
def locDictEntries (l : Loc) : List (String × RawVal) :=
  [("city", optStrVal l.city), ("neighborhood", optStrVal l.neighborhood),
   ("street", optStrVal l.street), ("number", optStrVal l.number),
   ("zipcode", optStrVal l.zipcode), ("complement", optStrVal l.complement),
   ("map_link", optStrVal l.map_link)]

/-- A location entity as the Python dict built by `clean_location`. -/
def Loc.toRawDict (l : Loc) : RawVal := .dict (locDictEntries l)

/-- A cleaned record viewed again as a raw record (the dict that
`clean_data` returned, fed back to `clean_data`). -/
def Record.toRaw (r : Record) : RawRecord :=
  { url := optStrVal r.url
    scraped_at := r.scraped_at
    property_type := optStrVal r.property_type
    category := optStrVal r.category
    modality := optStrVal r.modality
    price := optFloatVal r.price
    size_m2 := optIntVal r.size_m2
    bedrooms := optIntVal r.bedrooms
    suites := optIntVal r.suites
    bathrooms := optIntVal r.bathrooms
    garage := optIntVal r.garage
    location := r.location.toRawDict
    description := optStrVal r.description
    advertiser_code := optStrVal r.advertiser_code
    vivareal_code := optStrVal r.vivareal_code
    images := .list (r.images.map .str) }

/-! ## extractors.py : extract_images — strategy merge -/

/-- The per-strategy merge loop of `extract_images` (extractors.py lines
723-726, 732-735, 741-744): append each new URL not seen before, in
first-seen order; `seen_urls` always equals the set of appended URLs. -/
def mergeDedup (acc new : List String) : List String :=
  new.foldl (fun a img => if img ∈ a then a else a ++ [img]) acc

/-- The strategy-4 merge loop (extractors.py lines 754-757), which also
caps the accumulated length at `max_images`. -/
def mergeDedupCap (acc new : List String) (max_images : Nat) : List String :=
  new.foldl
    (fun a img => if img ∉ a ∧ a.length < max_images then a ++ [img] else a) acc

/-- `extractors.extract_images` (extractors.py lines 712-764) given the
outputs of its four strategies (network interception, page interaction,
script mining, AI oracle — each an I/O action modelled by its result
list): strategy 2 runs only when fewer than 3 images accumulated,
strategy 3 likewise, strategy 4 only when none accumulated and AI is
enabled; the merge is first-seen-order deduplication capped at
`max_images`. -/
def extract_images (max_images : Nat) (use_ai : Bool)
    (s1 s2 s3 s4 : List String) : List String :=
  let images := mergeDedup [] s1
  let images := if images.length < 3 then mergeDedup images s2 else images
  let images := if images.length < 3 then mergeDedup images s3 else images
  let images :=
    if images.length < 1 ∧ use_ai then mergeDedupCap images s4 max_images
    else images
  images.take max_images

/-! ## extractors.py : extract_location — map-link tail and AI merge -/

/-- Python truthiness of an optional string field of the location dict. -/
def truthyS : Option String → Bool
  | none => false
  | some s => !s.data.isEmpty

/-- Candidate acceptance of the map-selector scan (extractors.py lines
274-296): sitemap-labelled links are rejected, only Google-Maps-shaped
URLs or URLs with explicit lat/lng parameters are accepted,
scheme-relative URLs are completed, site-relative ones skipped. -/
def acceptMapCandidate (u : String) : Option String :=
  let l := pyLower u
  if pyIn "mapa-do-site" l || pyIn "sitemap" l then none
  else if pyIn "google.com/maps" l || pyIn "maps.google" l ||
          (pyIn "/maps/" l && pyIn "google" l) ||
          (pyIn "lat=" l && pyIn "lng=" l) then
    if pyStarts u "//" then some ("https:" ++ u)
    else if pyStarts u "/" then none
    else some u
  else none

/-- Candidate acceptance of the map-text-element scan (extractors.py
lines 314-324): sitemap-labelled links rejected, Google-Maps substrings
required, scheme-relative URLs completed (site-relative ones are kept
as-is here — there is no `/` skip in this loop). -/
def acceptTextCandidate (u : String) : Option String :=
  let l := pyLower u
  if pyIn "mapa-do-site" l || pyIn "sitemap" l then none
  else if pyIn "google.com/maps" l || pyIn "maps.google" l then
    if pyStarts u "//" then some ("https:" ++ u) else some u
  else none

/-- Truthy values of a list of optional address parts, in order (the
`if location.get(...)` append chain of extractors.py lines 333-341 and
386-394). -/
def partsOf (l : List (Option String)) : List String :=
  l.filterMap fun o =>
    match o with
    | some s => if !s.data.isEmpty then some s else none
    | none => none

/-- `s.replace(' ', '+')`. -/
def pyReplaceSpacePlus (s : String) : String :=
  ⟨s.data.map fun c => if c = ' ' then '+' else c⟩

/-- Python `sep.join(parts)`. -/
def joinSep (sep : List Char) : List (List Char) → List Char
  | [] => []
  | [w] => w
  | w :: ws => w ++ sep ++ joinSep sep ws

/-- The synthesized Google-Maps search URL (extractors.py lines 344-346
and 397-398): truthy parts joined with `, `, spaces replaced by `+`,
behind the fixed search prefix. -/
def mapsSearchUrl (parts : List String) : String :=
  "https://www.google.com/maps/search/?api=1&query=" ++
    pyReplaceSpacePlus
      ⟨joinSep [',', ' '] ((parts.filter fun p => !p.data.isEmpty).map String.data)⟩

/-- The non-city field merges of the AI fallback (extractors.py lines
368-378): AI values fill only absent (falsy) fields, except `map_link`,
which is overwritten whenever the AI link contains `google.com/maps`.
Each of the sequential Python `if` statements reads and writes only its
own field, so the sequence is modelled as one parallel update. -/
def mergeRestAi (loc ai : Loc) : Loc :=
  { loc with
    neighborhood := if truthyS ai.neighborhood && !truthyS loc.neighborhood then
      ai.neighborhood else loc.neighborhood
    street := if truthyS ai.street && !truthyS loc.street then
      ai.street else loc.street
    number := if truthyS ai.number && !truthyS loc.number then
      ai.number else loc.number
    zipcode := if truthyS ai.zipcode && !truthyS loc.zipcode then
      ai.zipcode else loc.zipcode
    map_link :=
      match ai.map_link with
      | some m => if !m.data.isEmpty && pyIn "google.com/maps" m then some m
                  else loc.map_link
      | none => loc.map_link }

/-- The AI merge of extractors.py lines 366-378.  When the AI returned a
truthy city and the current city is `None`, line 366 evaluates
`len(location.get('city', ''))` on `None` and raises `TypeError`; the
exception is caught by the handler at line 380, so the whole merge is
aborted with no field updated. -/
def mergeAiLocation (loc ai : Loc) : Loc :=
  match ai.city with
  | some c =>
    if !c.data.isEmpty then
      match loc.city with
      | none => loc
      | some s =>
        mergeRestAi (if s.length < c.length then { loc with city := some c } else loc) ai
    else mergeRestAi loc ai
  | none => mergeRestAi loc ai

/-- The AI-fallback gate of extractors.py lines 356-357 (the `use_ai`
conjunct is handled by the caller): city missing or the truncated
artifact `São`, or map link missing or sitemap-marked. -/
def aiGate (loc : Loc) : Bool :=
  !truthyS loc.city || loc.city == some "São" || !truthyS loc.map_link ||
    (match loc.map_link with
     | some m => pyIn "mapa-do-site" m
     | none => false)

/-- The final-fallback gate of extractors.py line 384: map link missing
or sitemap-marked. -/
def finalGate (loc : Loc) : Bool :=
  !truthyS loc.map_link ||
    (match loc.map_link with
     | some m => pyIn "mapa-do-site" m
     | none => false)

/-- The map-link discovery of extractors.py lines 246-328: first hit of
the selector scan, then, if none, first hit of the text-element scan. -/
def mapCandPhase (loc0 : Loc) (mapCands textCands : List String) : Loc :=
  { loc0 with
    map_link :=
      match mapCands.findSome? acceptMapCandidate with
      | some m => some m
      | none => textCands.findSome? acceptTextCandidate }

/-- The first construction fallback of extractors.py lines 330-351:
if no map link was found and street and city are truthy, synthesize the
search URL from the truthy address parts. -/
def constructPhase (loc : Loc) : Loc :=
  if !truthyS loc.map_link && truthyS loc.street && truthyS loc.city then
    if !(partsOf [loc.street, loc.number, loc.neighborhood, loc.city]).isEmpty then
      { loc with
        map_link := some (mapsSearchUrl
          (partsOf [loc.street, loc.number, loc.neighborhood, loc.city])) }
    else loc
  else loc

/-- The AI phase of extractors.py lines 355-381 (`ai = none` models an
unavailable or failed oracle; an empty oracle dict behaves identically
to an all-`none` `Loc`). -/
def aiPhase (loc : Loc) (use_ai : Bool) (ai : Option Loc) : Loc :=
  if aiGate loc && use_ai then
    match ai with
    | some a => mergeAiLocation loc a
    | none => loc
  else loc

/-- The final construction fallback of extractors.py lines 383-402:
if the map link is still missing or sitemap-marked and at least two
truthy address parts exist (a city equal to the truncated artifact
`São` excluded), synthesize the search URL. -/
def finalParts (loc : Loc) : List String :=
  partsOf [loc.street, loc.number, loc.neighborhood] ++
    (match loc.city with
     | some c => if !c.data.isEmpty && c ≠ "São" then [c] else []
     | none => [])

def finalPhase (loc : Loc) : Loc :=
  if finalGate loc then
    if 2 ≤ (finalParts loc).length then
      { loc with map_link := some (mapsSearchUrl (finalParts loc)) }
    else loc
  else loc

/-- The map-link and AI tail of `extractors.extract_location`
(extractors.py lines 245-406), given the location fields gathered by the
earlier title/element phases (`loc0`, whose `map_link` the code has not
yet assigned), the candidate URLs of the selector scan and of the
text-element scan, and the AI oracle outcome. -/
def extract_location_tail (loc0 : Loc) (mapCands textCands : List String)
    (use_ai : Bool) (ai : Option Loc) : Loc :=
  finalPhase (aiPhase (constructPhase (mapCandPhase loc0 mapCands textCands)) use_ai ai)

/-! ## scraper.py : VivaRealScraper.scrape — record assembly -/

/-- The outcomes of the page-dependent extractor calls made by `scrape`
(each an I/O action against the browser session, modelled by its
result); fields suffixed `1` are the initial pass, fields suffixed `2`
the re-extraction pass of scraper.py lines 245-250. -/
structure ScrapeEnv where
  scraped_at : String
  property_type1 : Option String := none
  modality1 : Option String := none
  price1 : Option PFloat := none
  location1 : Loc := {}
  description1 : Option String := none
  images1 : List String := []
  size_m2_1 : Option Int := none
  bedrooms1 : Option Int := none
  suites1 : Option Int := none
  bathrooms1 : Option Int := none
  garage1 : Option Int := none
  advertiser_code1 : Option String := none
  vivareal_code1 : Option String := none
  property_type2 : Option String := none
  price2 : Option PFloat := none
  location2 : Loc := {}

/-- Python truthiness of the optional price (`0.0` is falsy). -/
def truthyF : Option PFloat → Bool
  | none => false
  | some (.finite q) => q != 0
  | some _ => true

/-- The raw-record assembly and completeness fallback of
`VivaRealScraper.scrape` (scraper.py lines 212-260), returning the raw
record handed to `clean_data` together with the number of re-extraction
passes performed (the code has no loop, so this is 0 or 1): the count of
non-absent essential fields {property_type, price, location.city} gates
a single re-extraction of the still-falsy essentials.  The source
re-extracts inside one `if extracted_count == 0` block; each guarded
assignment is modelled by conjoining `extracted_count = 0` with its
truthiness guard. -/
def scrapeRaw (url : String) (env : ScrapeEnv) : RawRecord × Nat :=
  let extracted_count : Nat :=
    (if env.property_type1 ≠ none then 1 else 0) +
      (if env.price1 ≠ none then 1 else 0) +
      (if env.location1.city ≠ none then 1 else 0)
  let pt := if extracted_count = 0 ∧ !truthyS env.property_type1 then
    env.property_type2 else env.property_type1
  let price := if extracted_count = 0 ∧ !truthyF env.price1 then
    env.price2 else env.price1
  let loc := if extracted_count = 0 ∧ !truthyS env.location1.city then
    env.location2 else env.location1
  let passes := if extracted_count = 0 then 1 else 0
  ({ url := .str url
     scraped_at := .str env.scraped_at
     property_type := optStrVal pt
     category := .none
     modality := optStrVal env.modality1
     price := optFloatVal price
     size_m2 := optIntVal env.size_m2_1
     bedrooms := optIntVal env.bedrooms1
     suites := optIntVal env.suites1
     bathrooms := optIntVal env.bathrooms1
     garage := optIntVal env.garage1
     location := loc.toRawDict
     description := optStrVal env.description1
     advertiser_code := optStrVal env.advertiser_code1
     vivareal_code := optStrVal env.vivareal_code1
     images := .list (env.images1.map .str) }, passes)

/-- `VivaRealScraper.scrape` after a successful page load: assemble the
raw record (with the completeness fallback) and clean it
(scraper.py line 262). -/
def scrape (url : String) (env : ScrapeEnv) : Except String Record :=
  clean_data (scrapeRaw url env).1

/-! ## Lemmas: words, whitespace and normalize_text idempotence -/

theorem pyWords_sound (l : List Char) :
    ∀ w ∈ pyWords l, w ≠ [] ∧ ∀ c ∈ w, isWs c = false := by
  induction l using pyWords.induct with
  | case1 => simp [pyWords]
  | case2 c cs h ih =>
    rw [pyWords, if_pos h]
    exact ih
  | case3 c cs h ih =>
    rw [pyWords, if_neg h]
    intro w hw
    rcases List.mem_cons.mp hw with hw | hw
    · subst hw
      refine ⟨by simp, ?_⟩
      intro d hd
      rcases List.mem_cons.mp hd with hd | hd
      · subst hd; simpa using h
      · have := List.mem_takeWhile_imp hd
        simpa using this
    · exact ih w hw

theorem pyWords_word (w : List Char) (hw : w ≠ []) (hf : ∀ c ∈ w, isWs c = false) :
    pyWords w = [w] := by
  cases w with
  | nil => exact absurd rfl hw
  | cons c cs =>
    have hc : isWs c = false := hf c (by simp)
    rw [pyWords, if_neg (by simp [hc])]
    have htake : cs.takeWhile (fun d => !isWs d) = cs :=
      List.takeWhile_eq_self_iff.mpr (fun d hd => by simp [hf d (List.mem_cons_of_mem _ hd)])
    have hdrop : cs.dropWhile (fun d => !isWs d) = [] :=
      List.dropWhile_eq_nil_iff.mpr (fun d hd => by simp [hf d (List.mem_cons_of_mem _ hd)])
    rw [htake, hdrop, pyWords]

theorem pyWords_word_append (w r : List Char) (hw : w ≠ [])
    (hf : ∀ c ∈ w, isWs c = false) :
    pyWords (w ++ ' ' :: r) = w :: pyWords r := by
  cases w with
  | nil => exact absurd rfl hw
  | cons c cs =>
    have hc : isWs c = false := hf c (by simp)
    rw [List.cons_append, pyWords, if_neg (by simp [hc])]
    have hcs : ∀ d ∈ cs, (fun d => !isWs d) d = true :=
      fun d hd => by simp [hf d (List.mem_cons_of_mem _ hd)]
    have hsp : (fun d => !isWs d) ' ' = false := by simp [isWs]
    rw [List.takeWhile_append_of_pos hcs, List.dropWhile_append_of_pos hcs]
    rw [List.takeWhile_cons_of_neg (by simpa using hsp),
        List.dropWhile_cons_of_neg (by simpa using hsp)]
    rw [pyWords, if_pos (by simp [isWs])]
    simp

theorem joinWords_two (w w2 : List Char) (ws : List (List Char)) :
    joinWords (w :: w2 :: ws) = w ++ ' ' :: joinWords (w2 :: ws) := rfl

theorem pyWords_joinWords (ws : List (List Char))
    (h : ∀ w ∈ ws, w ≠ [] ∧ ∀ c ∈ w, isWs c = false) :
    pyWords (joinWords ws) = ws := by
  induction ws with
  | nil => simp [joinWords, pyWords]
  | cons w ws ih =>
    cases ws with
    | nil =>
      have hw := h w (by simp)
      rw [joinWords, pyWords_word w hw.1 hw.2]
    | cons w2 ws2 =>
      rw [joinWords_two]
      have hw := h w (by simp)
      rw [pyWords_word_append w _ hw.1 hw.2]
      rw [ih (fun v hv => h v (List.mem_cons_of_mem _ hv))]

theorem joinWords_ne_nil (w : List Char) (ws : List (List Char)) (hw : w ≠ []) :
    joinWords (w :: ws) ≠ [] := by
  cases ws with
  | nil => simpa [joinWords] using hw
  | cons w2 ws2 =>
    rw [joinWords_two]
    cases w with
    | nil => exact absurd rfl hw
    | cons a as => simp

theorem joinWords_head (ws : List (List Char))
    (h : ∀ w ∈ ws, w ≠ [] ∧ ∀ c ∈ w, isWs c = false) :
    ∀ c, (joinWords ws).head? = some c → isWs c = false := by
  intro c hc
  cases ws with
  | nil => simp [joinWords] at hc
  | cons w ws2 =>
    have hw := h w (by simp)
    cases w with
    | nil => exact absurd rfl hw.1
    | cons a as =>
      have hhead : (joinWords ((a :: as) :: ws2)).head? = some a := by
        cases ws2 with
        | nil => simp [joinWords]
        | cons w2 ws3 => rw [joinWords_two]; simp
      rw [hhead] at hc
      obtain rfl : a = c := by simpa using hc
      exact hw.2 a (by simp)

theorem joinWords_last (ws : List (List Char))
    (h : ∀ w ∈ ws, w ≠ [] ∧ ∀ c ∈ w, isWs c = false) :
    ∀ c, (joinWords ws).getLast? = some c → isWs c = false := by
  induction ws with
  | nil => intro c hc; simp [joinWords] at hc
  | cons w ws2 ih =>
    intro c hc
    cases ws2 with
    | nil =>
      rw [show joinWords [w] = w from rfl] at hc
      exact (h w (by simp)).2 c (List.mem_of_getLast?_eq_some hc)
    | cons w2 ws3 =>
      rw [joinWords_two, List.getLast?_append_cons] at hc
      have hne : joinWords (w2 :: ws3) ≠ [] :=
        joinWords_ne_nil w2 ws3 (h w2 (by simp)).1
      cases hj : joinWords (w2 :: ws3) with
      | nil => exact absurd hj hne
      | cons j js =>
        rw [hj, List.getLast?_cons_cons] at hc
        refine ih (fun v hv => h v (List.mem_cons_of_mem _ hv)) c ?_
        rw [hj]
        exact hc

theorem stripL_eq_self (l : List Char)
    (h1 : ∀ c, l.head? = some c → isWs c = false)
    (h2 : ∀ c, l.getLast? = some c → isWs c = false) :
    stripL l = l := by
  have hd : l.dropWhile isWs = l := by
    cases l with
    | nil => rfl
    | cons c cs => exact List.dropWhile_cons_of_neg (by simp [h1 c rfl])
  rw [stripL, hd]
  have hr : l.reverse.dropWhile isWs = l.reverse := by
    cases hrev : l.reverse with
    | nil => rfl
    | cons c cs =>
      refine List.dropWhile_cons_of_neg ?_
      have hlast : l.getLast? = some c := by
        rw [← List.head?_reverse, hrev]
        rfl
      simp [h2 c hlast]
  rw [hr, List.reverse_reverse]

theorem stripL_joinWords_pyWords (l : List Char) :
    stripL (joinWords (pyWords l)) = joinWords (pyWords l) := by
  have hsound := pyWords_sound l
  exact stripL_eq_self _ (joinWords_head _ hsound) (joinWords_last _ hsound)

theorem normalize_text_fix (s : String)
    (hs : ∃ v, normalize_text v = some s) :
    normalize_text (.str s) = some s := by
  obtain ⟨v, hv⟩ := hs
  rw [normalize_text] at hv
  by_cases htr : pyTruthy v = true
  · simp only [htr, Bool.not_true, Bool.false_eq_true, if_false] at hv
    have hstrip := stripL_joinWords_pyWords (pyStr v).data
    have hps : pyStrip ⟨joinWords (pyWords (pyStr v).data)⟩ =
        ⟨joinWords (pyWords (pyStr v).data)⟩ := by
      apply String.ext
      simpa [pyStrip] using hstrip
    rw [hps] at hv
    by_cases hem : (joinWords (pyWords (pyStr v).data)).isEmpty = true
    · rw [if_pos (by simpa using hem)] at hv
      exact absurd hv (by simp)
    · rw [if_neg (by simpa using hem)] at hv
      have hsdata : s.data = joinWords (pyWords (pyStr v).data) := by
        have := congrArg (fun o => Option.map String.data o) hv
        simpa using this.symm
      rw [normalize_text]
      have htr2 : pyTruthy (.str s) = true := by
        simp only [pyTruthy, hsdata]
        simpa using hem
      simp only [htr2, Bool.not_true, Bool.false_eq_true, if_false]
      have hwords : pyWords s.data = pyWords (pyStr v).data := by
        rw [hsdata]
        exact pyWords_joinWords _ (pyWords_sound _)
      rw [show pyStr (.str s) = s from rfl, hwords]
      have hps2 : pyStrip ⟨joinWords (pyWords (pyStr v).data)⟩ =
          ⟨joinWords (pyWords (pyStr v).data)⟩ := hps
      rw [hps2, if_neg (by simpa using hem)]
      exact congrArg some (String.ext hsdata.symm)
  · rw [if_pos (by simpa using htr)] at hv
    exact absurd hv (by simp)

theorem normalize_text_ne_empty (v : RawVal) (s : String)
    (h : normalize_text v = some s) : s.data.isEmpty = false := by
  rw [normalize_text] at h
  by_cases htr : pyTruthy v = true
  · simp only [htr, Bool.not_true, Bool.false_eq_true, if_false] at h
    by_cases hem : (pyStrip ⟨joinWords (pyWords (pyStr v).data)⟩).data.isEmpty = true
    · rw [if_pos hem] at h
      exact absurd h (by simp)
    · rw [if_neg hem] at h
      obtain rfl : _ = s := Option.some.inj h
      simpa using hem
  · rw [if_pos (by simpa using htr)] at h
    exact absurd h (by simp)

theorem normalize_text_roundtrip (v : RawVal) (o : Option String)
    (h : normalize_text v = o) : normalize_text (optStrVal o) = o := by
  cases o with
  | none => rfl
  | some s => exact normalize_text_fix s ⟨v, h⟩

theorem normalize_zipcode_format (digits : List Char) (k : Nat)
    (hdig : ∀ c ∈ digits, c.isDigit = true) :
    normalize_zipcode (.str ⟨digits.take k ++ '-' :: digits.drop k⟩) =
      (if digits.length = 8 then some ⟨digits.take 5 ++ '-' :: digits.drop 5⟩
       else if digits.length = 7 then some ⟨digits.take 4 ++ '-' :: digits.drop 4⟩
       else none) := by
  have hsplit : (digits.take k ++ '-' :: digits.drop k).filter Char.isDigit = digits := by
    rw [List.filter_append, List.filter_cons]
    have hm : ('-').isDigit = false := by decide
    rw [List.filter_eq_self.mpr (fun c hc => hdig c (List.mem_of_mem_take hc)),
        List.filter_eq_self.mpr (fun c hc => hdig c (List.mem_of_mem_drop hc))]
    simp [hm, List.take_append_drop]
  rw [normalize_zipcode, if_neg (by simp [pyTruthy, List.isEmpty_iff])]
  simp only [pyStr, hsplit]

theorem normalize_zipcode_roundtrip (v : RawVal) (o : Option String)
    (h : normalize_zipcode v = o) : normalize_zipcode (optStrVal o) = o := by
  cases o with
  | none => rfl
  | some s =>
    rw [normalize_zipcode] at h
    by_cases htr : pyTruthy v = true
    · simp only [htr, Bool.not_true, Bool.false_eq_true, if_false] at h
      have hdig : ∀ c ∈ (pyStr v).data.filter Char.isDigit, c.isDigit = true :=
        fun c hc => List.of_mem_filter hc
      by_cases h8 : ((pyStr v).data.filter Char.isDigit).length = 8
      · rw [if_pos h8] at h
        obtain rfl : _ = s := Option.some.inj h
        rw [show optStrVal (some _) = .str _ from rfl,
            normalize_zipcode_format _ 5 hdig, if_pos h8]
      · rw [if_neg h8] at h
        by_cases h7 : ((pyStr v).data.filter Char.isDigit).length = 7
        · rw [if_pos h7] at h
          obtain rfl : _ = s := Option.some.inj h
          rw [show optStrVal (some _) = .str _ from rfl,
              normalize_zipcode_format _ 4 hdig, if_neg h8, if_pos h7]
        · rw [if_neg h7] at h
          exact absurd h (by simp)
    · rw [if_pos (by simpa using htr)] at h
      exact absurd h (by simp)

theorem validate_price_roundtrip (v : RawVal) (o : Option PFloat)
    (h : validate_price v = o) : validate_price (optFloatVal o) = o := by
  cases o with
  | none => rfl
  | some f =>
    have hge : f.ge0 = true := by
      cases v with
      | int n =>
        rw [validate_price] at h
        by_cases hn : 0 ≤ n
        · rw [if_pos hn] at h
          obtain rfl : _ = f := Option.some.inj h
          simpa [PFloat.ge0] using hn
        · rw [if_neg hn] at h
          exact absurd h (by simp)
      | float g =>
        rw [validate_price] at h
        by_cases hg : g.ge0 = true
        · rw [if_pos hg] at h
          obtain rfl : _ = f := Option.some.inj h
          exact hg
        · rw [if_neg hg] at h
          exact absurd h (by simp)
      | str s =>
        rw [validate_price] at h
        cases hq : pyParseFloat ((if 1 < (((s.data.filter fun c => c.isDigit || c == '.' || c == ',').map
            fun c => if c == ',' then '.' else c).filter fun c => c == '.').length then
            ((s.data.filter fun c => c.isDigit || c == '.' || c == ',').map
            fun c => if c == ',' then '.' else c).filter fun c => c != '.'
            else (s.data.filter fun c => c.isDigit || c == '.' || c == ',').map
            fun c => if c == ',' then '.' else c)) with
        | none =>
          rw [hq] at h
          exact absurd (show (Option.none : Option PFloat) = some f from h) (by simp)
        | some q =>
          rw [hq] at h
          have h2 : (if 0 ≤ q then some (PFloat.finite q) else none) = some f := h
          by_cases hge : 0 ≤ q
          · rw [if_pos hge] at h2
            obtain rfl : _ = f := Option.some.inj h2
            simpa [PFloat.ge0] using hge
          · rw [if_neg hge] at h2
            exact absurd h2 (by simp)
      | none => exact absurd h (by simp [validate_price])
      | list l => exact absurd h (by simp [validate_price])
      | dict d => exact absurd h (by simp [validate_price])
    simp [validate_price, optFloatVal, hge]

theorem intBounds_roundtrip (m mi : Int) (ma : Option Int) (n : Int)
    (h : intBounds m mi ma = some n) : intBounds n mi ma = some n := by
  cases ma with
  | none =>
    have h2 : (if mi ≤ m then some m else none) = some n := h
    by_cases hmi : mi ≤ m
    · rw [if_pos hmi] at h2
      obtain rfl : m = n := Option.some.inj h2
      show (if mi ≤ m then some m else none) = some m
      rw [if_pos hmi]
    · rw [if_neg hmi] at h2
      exact absurd h2 (by simp)
  | some x =>
    have h2 : (if mi ≤ m then (if m ≤ x then some m else none) else none) = some n := h
    by_cases hmi : mi ≤ m
    · rw [if_pos hmi] at h2
      by_cases hx : m ≤ x
      · rw [if_pos hx] at h2
        obtain rfl : m = n := Option.some.inj h2
        show (if mi ≤ m then (if m ≤ x then some m else none) else none) = some m
        rw [if_pos hmi, if_pos hx]
      · rw [if_neg hx] at h2
        exact absurd h2 (by simp)
    · rw [if_neg hmi] at h2
      exact absurd h2 (by simp)

theorem validate_int_roundtrip (v : RawVal) (mi : Int) (ma : Option Int) (o : Option Int)
    (h : validate_int_value v mi ma = .ok o) :
    validate_int_value (optIntVal o) mi ma = .ok o := by
  cases o with
  | none => rfl
  | some n =>
    have hb : intBounds n mi ma = some n := by
      cases v with
      | int m =>
        rw [validate_int_value] at h
        exact intBounds_roundtrip m mi ma n (by simpa using h)
      | float x =>
        cases x with
        | finite q =>
          rw [validate_int_value] at h
          exact intBounds_roundtrip (pyTrunc q) mi ma n (by simpa using h)
        | nan => exact absurd h (by simp [validate_int_value])
        | inf => exact absurd h (by simp [validate_int_value])
        | ninf => exact absurd h (by simp [validate_int_value])
      | str s =>
        rw [validate_int_value] at h
        by_cases he : (s.data.filter Char.isDigit).isEmpty = true
        · simp only [he, if_pos] at h
          exact absurd h (by simp)
        · simp only [he, Bool.false_eq_true, if_false] at h
          exact intBounds_roundtrip _ mi ma n (by simpa using h)
      | none => exact absurd h (by simp [validate_int_value])
      | list l => exact absurd h (by simp [validate_int_value])
      | dict d => exact absurd h (by simp [validate_int_value])
    simp [validate_int_value, optIntVal, hb]

theorem except_bind_ok (x : α) (f : α → Except ε β) :
    (Except.ok x >>= f) = f x := rfl

theorem except_bind_error (e : ε) (f : α → Except ε β) :
    ((Except.error e : Except ε α) >>= f) = .error e := rfl

theorem category_roundtrip (v : RawVal) (o : Option String)
    (h : (if pyTruthy v then normalize_text v else none) = o) :
    (if pyTruthy (optStrVal o) then normalize_text (optStrVal o) else none) = o := by
  cases o with
  | none => rfl
  | some s =>
    by_cases htr : pyTruthy v = true
    · rw [if_pos htr] at h
      have hne := normalize_text_ne_empty v s h
      rw [if_pos (by simp [optStrVal, pyTruthy, hne])]
      exact normalize_text_fix s ⟨v, h⟩
    · rw [if_neg htr] at h
      exact absurd h (by simp)

theorem filterMap_id_of_mem (l : List String) (f : String → Option String)
    (hf : ∀ s ∈ l, f s = some s) : l.filterMap f = l := by
  induction l with
  | nil => rfl
  | cons a as ih =>
    rw [List.filterMap_cons, hf a (by simp)]
    rw [ih (fun s hs => hf s (List.mem_cons_of_mem _ hs))]

theorem cleanImages_length (v : RawVal) : (cleanImages v).length ≤ 15 := by
  cases v <;> simp [cleanImages]

theorem cleanImages_roundtrip (imgs : List String)
    (hlen : imgs.length ≤ 15)
    (hi : ∀ s ∈ imgs, validate_url (.str s) = some s) :
    cleanImages (.list (imgs.map .str)) = imgs := by
  rw [cleanImages, List.filterMap_map]
  rw [filterMap_id_of_mem imgs (validate_url ∘ RawVal.str) (fun s hs => hi s hs)]
  exact List.take_of_length_le hlen

theorem clean_location_empty_roundtrip :
    clean_location (dictGet (locDictEntries {})) = {} := by
  rfl

theorem clean_location_roundtrip (g : String → RawVal)
    (hm : validate_url (optStrVal (clean_location g).map_link) =
      (clean_location g).map_link) :
    clean_location (dictGet (locDictEntries (clean_location g))) = clean_location g := by
  have hc : dictGet (locDictEntries (clean_location g)) "city" =
      optStrVal (clean_location g).city := rfl
  have hn : dictGet (locDictEntries (clean_location g)) "neighborhood" =
      optStrVal (clean_location g).neighborhood := rfl
  have hs : dictGet (locDictEntries (clean_location g)) "street" =
      optStrVal (clean_location g).street := rfl
  have hnum : dictGet (locDictEntries (clean_location g)) "number" =
      optStrVal (clean_location g).number := rfl
  have hz : dictGet (locDictEntries (clean_location g)) "zipcode" =
      optStrVal (clean_location g).zipcode := rfl
  have hcl : dictGet (locDictEntries (clean_location g)) "complement" =
      optStrVal (clean_location g).complement := rfl
  have hml : dictGet (locDictEntries (clean_location g)) "map_link" =
      optStrVal (clean_location g).map_link := rfl
  rw [show clean_location (dictGet (locDictEntries (clean_location g))) =
      { city := normalize_text (dictGet (locDictEntries (clean_location g)) "city")
        neighborhood := normalize_text (dictGet (locDictEntries (clean_location g)) "neighborhood")
        street := normalize_text (dictGet (locDictEntries (clean_location g)) "street")
        number := normalize_text (dictGet (locDictEntries (clean_location g)) "number")
        zipcode := normalize_zipcode (dictGet (locDictEntries (clean_location g)) "zipcode")
        complement := normalize_text (dictGet (locDictEntries (clean_location g)) "complement")
        map_link := validate_url (dictGet (locDictEntries (clean_location g)) "map_link") }
    from rfl]
  rw [hc, hn, hs, hnum, hz, hcl, hml]
  conv_rhs => rw [show clean_location g =
    { city := (clean_location g).city, neighborhood := (clean_location g).neighborhood,
      street := (clean_location g).street, number := (clean_location g).number,
      zipcode := (clean_location g).zipcode, complement := (clean_location g).complement,
      map_link := (clean_location g).map_link } from rfl]
  simp only [Loc.mk.injEq]
  refine ⟨?_, ?_, ?_, ?_, ?_, ?_, ?_⟩
  · exact normalize_text_roundtrip (g "city") _ rfl
  · exact normalize_text_roundtrip (g "neighborhood") _ rfl
  · exact normalize_text_roundtrip (g "street") _ rfl
  · exact normalize_text_roundtrip (g "number") _ rfl
  · exact normalize_zipcode_roundtrip (g "zipcode") _ rfl
  · exact normalize_text_roundtrip (g "complement") _ rfl
  · exact hm

/-- Idempotence of the cleaner, under URL-revalidation stability of the
cleaned url, map link, and image entries. -/
theorem clean_data_roundtrip (d : RawRecord) (r : Record)
    (h : clean_data d = .ok r)
    (hu : validate_url (optStrVal r.url) = r.url)
    (hm : validate_url (optStrVal r.location.map_link) = r.location.map_link)
    (hi : ∀ s ∈ r.images, validate_url (.str s) = some s) :
    clean_data r.toRaw = .ok r := by
  rw [clean_data] at h
  cases e1 : validate_int_value d.size_m2 1 none with
  | error e => rw [e1, except_bind_error] at h; exact absurd h (by simp)
  | ok size_m2 =>
  rw [e1, except_bind_ok] at h
  cases e2 : validate_int_value d.bedrooms 0 none with
  | error e => rw [e2, except_bind_error] at h; exact absurd h (by simp)
  | ok bedrooms =>
  rw [e2, except_bind_ok] at h
  cases e3 : validate_int_value d.suites 0 none with
  | error e => rw [e3, except_bind_error] at h; exact absurd h (by simp)
  | ok suites =>
  rw [e3, except_bind_ok] at h
  cases e4 : validate_int_value d.bathrooms 0 none with
  | error e => rw [e4, except_bind_error] at h; exact absurd h (by simp)
  | ok bathrooms =>
  rw [e4, except_bind_ok] at h
  cases e5 : validate_int_value d.garage 0 none with
  | error e => rw [e5, except_bind_error] at h; exact absurd h (by simp)
  | ok garage =>
  rw [e5, except_bind_ok] at h
  obtain rfl : _ = r := Except.ok.inj h
  simp only [Record.toRaw] at hu hm hi ⊢
  rw [clean_data]
  rw [validate_int_roundtrip d.size_m2 1 none size_m2 e1, except_bind_ok]
  rw [validate_int_roundtrip d.bedrooms 0 none bedrooms e2, except_bind_ok]
  rw [validate_int_roundtrip d.suites 0 none suites e3, except_bind_ok]
  rw [validate_int_roundtrip d.bathrooms 0 none bathrooms e4, except_bind_ok]
  rw [validate_int_roundtrip d.garage 0 none garage e5, except_bind_ok]
  simp only [Except.ok.injEq, Record.mk.injEq, eq_self_iff_true, and_true, true_and]
  refine ⟨hu, ?_, ?_, ?_, ?_, ?_, ?_, ?_, ?_, ?_⟩
  · exact normalize_text_roundtrip d.property_type _ rfl
  · exact category_roundtrip d.category _ rfl
  · exact normalize_text_roundtrip d.modality _ rfl
  · exact validate_price_roundtrip d.price _ rfl
  · cases hdl : d.location with
    | dict entries =>
      rw [hdl] at hm
      exact clean_location_roundtrip (dictGet entries) (by simpa using hm)
    | none => exact clean_location_empty_roundtrip
    | int n => exact clean_location_empty_roundtrip
    | float x => exact clean_location_empty_roundtrip
    | str s => exact clean_location_empty_roundtrip
    | list l => exact clean_location_empty_roundtrip
  · exact normalize_text_roundtrip d.description _ rfl
  · exact normalize_text_roundtrip d.advertiser_code _ rfl
  · exact normalize_text_roundtrip d.vivareal_code _ rfl
  · exact cleanImages_roundtrip _ (cleanImages_length d.images) hi

/-! ## Lemmas: the boolean substring test `hasSubL` -/

theorem isPre_refl (t : List Char) : isPre t t = true := by
  induction t with
  | nil => rfl
  | cons c cs ih => rw [isPre, ih]; simp

theorem isPre_append_right (pat t b : List Char) (h : isPre pat t = true) :
    isPre pat (t ++ b) = true := by
  induction pat generalizing t with
  | nil => rfl
  | cons p ps ih =>
    cases t with
    | nil => exact absurd h (by simp [isPre])
    | cons c cs =>
      rw [isPre] at h
      rw [Bool.and_eq_true] at h
      rw [List.cons_append, isPre, h.1, ih cs h.2]
      rfl

theorem isPre_split (pat x b : List Char) (h : isPre pat (x ++ b) = true) :
    isPre pat x = true ∨ isPre x pat = true := by
  induction pat generalizing x with
  | nil => left; rfl
  | cons p ps ih =>
    cases x with
    | nil => right; rfl
    | cons c cs =>
      rw [List.cons_append, isPre, Bool.and_eq_true] at h
      have hpc : p = c := by simpa using h.1
      subst hpc
      rcases ih cs h.2 with h3 | h3
      · left; rw [isPre, h3]; simp
      · right; rw [isPre, h3]; simp

theorem isPre_ex (t pat : List Char) (h : isPre t pat = true) :
    ∃ e, pat = t ++ e := by
  induction t generalizing pat with
  | nil => exact ⟨pat, rfl⟩
  | cons c cs ih =>
    cases pat with
    | nil => exact absurd h (by simp [isPre])
    | cons p ps =>
      rw [isPre, Bool.and_eq_true] at h
      obtain ⟨e, he⟩ := ih ps h.2
      exact ⟨e, by rw [List.cons_append, ← he, show c = p from by simpa using h.1]⟩

theorem isPre_cancel (x y z : List Char) (h : isPre (x ++ y) (x ++ z) = true) :
    isPre y z = true := by
  induction x with
  | nil => exact h
  | cons c cs ih =>
    rw [List.cons_append, List.cons_append, isPre, Bool.and_eq_true] at h
    exact ih h.2

theorem hasSubL_of_isPre (pat t : List Char) (h : isPre pat t = true) :
    hasSubL pat t = true := by
  cases t with
  | nil =>
    cases pat with
    | nil => rfl
    | cons p ps => exact absurd h (by simp [isPre])
  | cons c cs => rw [hasSubL, h]; rfl

theorem hasSubL_append_right (pat pre u : List Char) (h : hasSubL pat u = true) :
    hasSubL pat (pre ++ u) = true := by
  induction pre with
  | nil => exact h
  | cons c cs ih => rw [List.cons_append, hasSubL, ih]; simp

theorem hasSubL_append_left (pat a b : List Char) (h : hasSubL pat a = true) :
    hasSubL pat (a ++ b) = true := by
  induction a with
  | nil =>
    rw [hasSubL] at h
    rw [List.nil_append]
    exact hasSubL_of_isPre pat b (by cases pat with
      | nil => rfl
      | cons p ps => exact absurd h (by simp))
  | cons c cs ih =>
    rw [hasSubL, Bool.or_eq_true] at h
    rw [List.cons_append, hasSubL]
    rcases h with h1 | h1
    · rw [← List.cons_append, isPre_append_right pat (c :: cs) b h1]
      rfl
    · rw [ih h1]
      simp

theorem hasSubL_append_cases (pat a b : List Char)
    (h : hasSubL pat (a ++ b) = true) :
    hasSubL pat a = true ∨ hasSubL pat b = true ∨
      ∃ x t, a = x ++ t ∧ t ≠ [] ∧ isPre pat (t ++ b) = true := by
  induction a with
  | nil => right; left; exact h
  | cons c cs ih =>
    rw [List.cons_append, hasSubL, Bool.or_eq_true] at h
    rcases h with h1 | h1
    · right; right
      exact ⟨[], c :: cs, by simp, by simp, h1⟩
    · rcases ih h1 with h2 | h2 | ⟨x, t, hxt, ht, hpre⟩
      · left
        rw [hasSubL, h2]
        simp
      · right; left; exact h2
      · right; right
        exact ⟨c :: x, t, by rw [hxt, List.cons_append], ht, hpre⟩

/-- No occurrence of `pat` can start inside `pre`: `pat` does not occur
in `pre`, and no nonempty suffix of `pre` is a prefix of `pat`. -/
def noSpan (pre pat : List Char) : Bool :=
  !hasSubL pat pre && pre.tails.all fun t => t.isEmpty || !isPre t pat

theorem hasSubL_prepend_noSpan (pat pre b : List Char)
    (h : noSpan pre pat = true) :
    hasSubL pat (pre ++ b) = hasSubL pat b := by
  rw [noSpan, Bool.and_eq_true] at h
  rcases h with ⟨h1, h2⟩
  cases hb : hasSubL pat b with
  | true => exact hasSubL_append_right pat pre b hb
  | false =>
    cases hab : hasSubL pat (pre ++ b) with
    | false => rfl
    | true =>
    exfalso
    rcases hasSubL_append_cases pat pre b hab with hc | hc | ⟨x, t, hxt, ht, hpre⟩
    · rw [hc] at h1; exact absurd h1 (by simp)
    · rw [hc] at hb; exact absurd hb (by simp)
    · rcases isPre_split pat t b hpre with hp | hp
      · have hx2 : hasSubL pat pre = true := by
          rw [hxt]
          exact hasSubL_append_right pat x t (hasSubL_of_isPre pat t hp)
        rw [hx2] at h1
        exact absurd h1 (by simp)
      · have hmem : t ∈ pre.tails := by
          rw [List.mem_tails, hxt]
          exact ⟨x, rfl⟩
        have h3 := List.all_eq_true.mp h2 t hmem
        rw [Bool.or_eq_true] at h3
        rcases h3 with hx | hx
        · exact absurd (by simpa using hx) ht
        · rw [hp] at hx
          exact absurd hx (by simp)

theorem hasSubL_sep_block (pat : List Char) (p rest : List Char)
    (hc : (',' : Char) ∉ pat)
    (hp : hasSubL pat p = false)
    (hr : hasSubL pat (',' :: rest) = false) :
    hasSubL pat (p ++ ',' :: rest) = false := by
  by_contra hcon
  have hab : hasSubL pat (p ++ ',' :: rest) = true := by
    cases hx : hasSubL pat (p ++ ',' :: rest) with
    | true => rfl
    | false => exact absurd hx hcon
  rcases hasSubL_append_cases pat p (',' :: rest) hab with h1 | h1 | ⟨x, t, hxt, ht, hpre⟩
  · rw [h1] at hp; exact absurd hp (by simp)
  · rw [h1] at hr; exact absurd hr (by simp)
  · rcases isPre_split pat t (',' :: rest) hpre with h2 | h2
    · have hx2 : hasSubL pat p = true := by
        rw [hxt]
        exact hasSubL_append_right pat x t (hasSubL_of_isPre pat t h2)
      rw [hx2] at hp; exact absurd hp (by simp)
    · obtain ⟨e, he⟩ := isPre_ex t pat h2
      cases e with
      | nil =>
        have hpt : pat = t := by rw [he, List.append_nil]
        have hx2 : hasSubL pat p = true := by
          rw [hxt, hpt]
          exact hasSubL_append_right t x t (hasSubL_of_isPre t t (isPre_refl t))
        rw [hx2] at hp; exact absurd hp (by simp)
      | cons e1 es =>
        rw [he] at hpre
        have he1 : isPre (e1 :: es) (',' :: rest) = true :=
          isPre_cancel t (e1 :: es) (',' :: rest) hpre
        rw [isPre, Bool.and_eq_true] at he1
        have hcomma : e1 = ',' := by simpa using he1.1
        subst hcomma
        refine hc ?_
        rw [he]
        exact List.mem_append_right t (List.mem_cons_self _ es)

theorem toLower_ws (c : Char) (h : isWs c = true) : Char.toLower c = c := by
  rw [isWs, Char.isWhitespace] at h
  simp only [Bool.or_eq_true, decide_eq_true_eq] at h
  rcases h with ((rfl | rfl) | rfl) | rfl <;> decide

theorem isPre_head_notmem (pat z : List Char) (c : Char)
    (hne : pat ≠ []) (hc : c ∉ pat) : isPre pat (c :: z) = false := by
  cases pat with
  | nil => exact absurd rfl hne
  | cons q qs =>
    by_cases hqc : q = c
    · subst hqc
      exact absurd (List.mem_cons_self q qs) hc
    · rw [isPre]
      simp [hqc]

theorem hasSubL_nil_of_ne (pat : List Char) (hne : pat ≠ []) :
    hasSubL pat [] = false := by
  cases pat with
  | nil => exact absurd rfl hne
  | cons q qs => rfl

theorem hasSubL_allws (pat w : List Char) (hne : pat ≠ [])
    (hpw : ∀ c ∈ pat, isWs c = false) (hw : ∀ c ∈ w, isWs c = true) :
    hasSubL pat w = false := by
  induction w with
  | nil => exact hasSubL_nil_of_ne pat hne
  | cons wc ws ih =>
    rw [hasSubL]
    have hmem : wc ∉ pat := by
      intro hm
      have h1 := hpw wc hm
      have h2 := hw wc (by simp)
      rw [h1] at h2
      exact absurd h2 (by simp)
    rw [isPre_head_notmem pat ws wc hne hmem,
        ih (fun c hc => hw c (List.mem_cons_of_mem _ hc))]
    rfl

theorem hasSubL_ws_left (pat w x : List Char) (hne : pat ≠ [])
    (hpw : ∀ c ∈ pat, isWs c = false) (hw : ∀ c ∈ w, isWs c = true) :
    hasSubL pat (w ++ x) = hasSubL pat x := by
  induction w with
  | nil => rfl
  | cons wc ws ih =>
    rw [List.cons_append, hasSubL]
    have hmem : wc ∉ pat := by
      intro hm
      have h1 := hpw wc hm
      have h2 := hw wc (by simp)
      rw [h1] at h2
      exact absurd h2 (by simp)
    rw [isPre_head_notmem pat (ws ++ x) wc hne hmem,
        ih (fun c hc => hw c (List.mem_cons_of_mem _ hc))]
    rfl

theorem hasSubL_ws_right (pat x w : List Char) (hne : pat ≠ [])
    (hpw : ∀ c ∈ pat, isWs c = false) (hw : ∀ c ∈ w, isWs c = true) :
    hasSubL pat (x ++ w) = hasSubL pat x := by
  cases hx : hasSubL pat x with
  | true => exact hasSubL_append_left pat x w hx
  | false =>
    cases hab : hasSubL pat (x ++ w) with
    | false => rfl
    | true =>
    exfalso
    rcases hasSubL_append_cases pat x w hab with h1 | h1 | ⟨y, t, hyt, ht, hpre⟩
    · rw [h1] at hx; exact absurd hx (by simp)
    · rw [hasSubL_allws pat w hne hpw hw] at h1
      exact absurd h1 (by simp)
    · rcases isPre_split pat t w hpre with h2 | h2
      · have hx2 : hasSubL pat x = true := by
          rw [hyt]
          exact hasSubL_append_right pat y t (hasSubL_of_isPre pat t h2)
        rw [hx2] at hx; exact absurd hx (by simp)
      · obtain ⟨e, he⟩ := isPre_ex t pat h2
        cases e with
        | nil =>
          have hpt : pat = t := by rw [he, List.append_nil]
          have hx2 : hasSubL pat x = true := by
            rw [hyt, hpt]
            exact hasSubL_append_right t y t (hasSubL_of_isPre t t (isPre_refl t))
          rw [hx2] at hx; exact absurd hx (by simp)
        | cons e1 es =>
          rw [he] at hpre
          have he1 : isPre (e1 :: es) w = true :=
            isPre_cancel t (e1 :: es) w hpre
          cases w with
          | nil => exact absurd he1 (by simp [isPre])
          | cons w1 ws =>
            rw [isPre, Bool.and_eq_true] at he1
            have hew : e1 = w1 := by simpa using he1.1
            have hmem : e1 ∈ pat := by
              rw [he]
              exact List.mem_append_right t (by simp)
            have h3 : isWs e1 = false := hpw e1 hmem
            have h4 : isWs w1 = true := hw w1 (by simp)
            rw [hew] at h3
            rw [h3] at h4
            exact absurd h4 (by simp)

theorem stripL_decomp (l : List Char) :
    ∃ a b, l = a ++ stripL l ++ b ∧ (∀ c ∈ a, isWs c = true) ∧
      (∀ c ∈ b, isWs c = true) := by
  refine ⟨l.takeWhile isWs, ((l.dropWhile isWs).reverse.takeWhile isWs).reverse,
    ?_, ?_, ?_⟩
  · rw [stripL, List.append_assoc]
    conv_lhs => rw [← List.takeWhile_append_dropWhile isWs l]
    congr 1
    conv_lhs => rw [← List.reverse_reverse (l.dropWhile isWs)]
    conv_lhs =>
      rw [← List.takeWhile_append_dropWhile isWs (l.dropWhile isWs).reverse]
    rw [List.reverse_append]
  · intro c hc
    exact List.mem_takeWhile_imp hc
  · intro c hc
    rw [List.mem_reverse] at hc
    exact List.mem_takeWhile_imp hc

theorem hasSubL_lower_strip (pat l : List Char) (hne : pat ≠ [])
    (hpw : ∀ c ∈ pat, isWs c = false) :
    hasSubL pat ((stripL l).map Char.toLower) = hasSubL pat (l.map Char.toLower) := by
  obtain ⟨a, b, hl, ha, hb⟩ := stripL_decomp l
  conv_rhs => rw [hl]
  rw [List.map_append, List.map_append]
  have hla : ∀ c ∈ a.map Char.toLower, isWs c = true := by
    intro c hc
    rw [List.mem_map] at hc
    obtain ⟨d, hd, rfl⟩ := hc
    rw [toLower_ws d (ha d hd)]
    exact ha d hd
  have hlb : ∀ c ∈ b.map Char.toLower, isWs c = true := by
    intro c hc
    rw [List.mem_map] at hc
    obtain ⟨d, hd, rfl⟩ := hc
    rw [toLower_ws d (hb d hd)]
    exact hb d hd
  rw [List.append_assoc, hasSubL_ws_left pat _ _ hne hpw hla,
      hasSubL_ws_right pat _ _ hne hpw hlb]

theorem data_append (a b : String) : (a ++ b).data = a.data ++ b.data := rfl

theorem joinSep_two (sep w w2 : List Char) (ws : List (List Char)) :
    joinSep sep (w :: w2 :: ws) = w ++ sep ++ joinSep sep (w2 :: ws) := rfl

theorem hasSubL_joinSep (pat : List Char) (parts : List (List Char))
    (hne : pat ≠ []) (hcm : (',' : Char) ∉ pat) (hsp : (' ' : Char) ∉ pat)
    (hp : ∀ p ∈ parts, hasSubL pat p = false) :
    hasSubL pat (joinSep [',', ' '] parts) = false := by
  induction parts with
  | nil => exact hasSubL_nil_of_ne pat hne
  | cons p ps ih =>
    cases ps with
    | nil => exact hp p (by simp)
    | cons p2 rest =>
      rw [joinSep_two, List.append_assoc]
      rw [show ([',', ' '] ++ joinSep [',', ' '] (p2 :: rest)) =
        ',' :: ' ' :: joinSep [',', ' '] (p2 :: rest) from rfl]
      refine hasSubL_sep_block pat p _ hcm (hp p (by simp)) ?_
      rw [hasSubL, isPre_head_notmem pat _ ',' hne hcm]
      rw [hasSubL, isPre_head_notmem pat _ ' ' hne hsp]
      rw [ih (fun q hq => hp q (List.mem_cons_of_mem _ hq))]
      rfl

theorem isPre_toLower (pat x : List Char)
    (hfix : ∀ c ∈ pat, Char.toLower c = c) (h : isPre pat x = true) :
    isPre pat (x.map Char.toLower) = true := by
  induction pat generalizing x with
  | nil => rfl
  | cons p ps ih =>
    cases x with
    | nil => exact absurd h (by simp [isPre])
    | cons c cs =>
      rw [isPre, Bool.and_eq_true] at h
      have hpc : p = c := by simpa using h.1
      subst hpc
      rw [List.map_cons, isPre,
          ih cs (fun d hd => hfix d (List.mem_cons_of_mem _ hd)) h.2,
          hfix p (by simp)]
      simp

theorem hasSubL_toLower (pat l : List Char)
    (hfix : ∀ c ∈ pat, Char.toLower c = c) (h : hasSubL pat l = true) :
    hasSubL pat (l.map Char.toLower) = true := by
  induction l with
  | nil => exact h
  | cons c cs ih =>
    rw [hasSubL, Bool.or_eq_true] at h
    rw [List.map_cons, hasSubL]
    rcases h with h1 | h1
    · rw [show (Char.toLower c :: cs.map Char.toLower) =
        (c :: cs).map Char.toLower from rfl, isPre_toLower pat (c :: cs) hfix h1]
      rfl
    · rw [ih h1]
      simp

theorem isPre_map_subLower (pat x : List Char) (hplus : ('+' : Char) ∉ pat)
    (h : isPre pat (x.map fun c => Char.toLower (if c = ' ' then '+' else c)) = true) :
    isPre pat (x.map Char.toLower) = true := by
  induction pat generalizing x with
  | nil => rfl
  | cons p ps ih =>
    cases x with
    | nil => exact absurd h (by simp [isPre])
    | cons c cs =>
      rw [List.map_cons, isPre, Bool.and_eq_true] at h
      have hpc : p = Char.toLower (if c = ' ' then '+' else c) := by simpa using h.1
      by_cases hsp : c = ' '
      · exfalso
        apply hplus
        have hp2 : p = '+' := by
          rw [hpc, if_pos hsp]
          decide
        rw [← hp2]
        exact List.mem_cons_self p ps
      · rw [List.map_cons, isPre]
        rw [if_neg hsp] at hpc
        rw [ih cs (fun hd => hplus (List.mem_cons_of_mem _ hd)) h.2]
        simp [hpc]

theorem hasSubL_map_subLower (pat l : List Char) (hplus : ('+' : Char) ∉ pat)
    (h : hasSubL pat (l.map fun c => Char.toLower (if c = ' ' then '+' else c)) = true) :
    hasSubL pat (l.map Char.toLower) = true := by
  induction l with
  | nil => exact h
  | cons c cs ih =>
    rw [List.map_cons, hasSubL, Bool.or_eq_true] at h
    rw [List.map_cons, hasSubL]
    rcases h with h1 | h1
    · rw [show (Char.toLower (if c = ' ' then '+' else c) ::
          cs.map fun d => Char.toLower (if d = ' ' then '+' else d)) =
          (c :: cs).map (fun d => Char.toLower (if d = ' ' then '+' else d)) from rfl] at h1
      have := isPre_map_subLower pat (c :: cs) hplus h1
      rw [List.map_cons] at this
      rw [this]
      rfl
    · rw [ih h1]
      simp

theorem map_toLower_joinSep (parts : List (List Char)) :
    (joinSep [',', ' '] parts).map Char.toLower =
      joinSep [',', ' '] (parts.map (fun p => p.map Char.toLower)) := by
  induction parts with
  | nil => rfl
  | cons p ps ih =>
    cases ps with
    | nil => rfl
    | cons p2 rest =>
      rw [joinSep_two,
          show (List.map (fun p => List.map Char.toLower p) (p :: p2 :: rest)) =
            (List.map Char.toLower p) :: (List.map Char.toLower p2) ::
              (List.map (fun p => List.map Char.toLower p) rest) from rfl,
          joinSep_two, List.map_append, List.map_append, ih,
          show (List.map (fun p => List.map Char.toLower p) (p2 :: rest)) =
            (List.map Char.toLower p2) ::
              (List.map (fun p => List.map Char.toLower p) rest) from rfl]
      rfl

/-! ## Map-link shape and sitemap markers -/

/-- A recognized map-service URL shape: the `is_valid_map` disjunction of
extractors.py lines 281-286 — Google-Maps-marked, or carrying explicit
lat/lng parameters (the synthesized search URL satisfies the first
disjunct).  Checked, like the source, on the lowercased string. -/
def mapShape (s : String) : Bool :=
  pyIn "google.com/maps" (pyLower s) || pyIn "maps.google" (pyLower s) ||
  (pyIn "/maps/" (pyLower s) && pyIn "google" (pyLower s)) ||
  (pyIn "lat=" (pyLower s) && pyIn "lng=" (pyLower s))

/-- A sitemap-marked URL: the exclusion test of extractors.py lines
277 and 317, on the lowercased string. -/
def sitemapMarked (s : String) : Bool :=
  pyIn "mapa-do-site" (pyLower s) || pyIn "sitemap" (pyLower s)

theorem pyIn_lower_strip (pat u : String) (h1 : pat.data ≠ [])
    (h2 : ∀ c ∈ pat.data, isWs c = false) :
    pyIn pat (pyLower (pyStrip u)) = pyIn pat (pyLower u) := by
  show hasSubL pat.data ((stripL u.data).map Char.toLower) =
    hasSubL pat.data (u.data.map Char.toLower)
  exact hasSubL_lower_strip pat.data u.data h1 h2

theorem mapShape_strip (u : String) : mapShape (pyStrip u) = mapShape u := by
  rw [mapShape, mapShape,
      pyIn_lower_strip "google.com/maps" u (by decide) (by decide),
      pyIn_lower_strip "maps.google" u (by decide) (by decide),
      pyIn_lower_strip "/maps/" u (by decide) (by decide),
      pyIn_lower_strip "google" u (by decide) (by decide),
      pyIn_lower_strip "lat=" u (by decide) (by decide),
      pyIn_lower_strip "lng=" u (by decide) (by decide)]

theorem sitemapMarked_strip (u : String) :
    sitemapMarked (pyStrip u) = sitemapMarked u := by
  rw [sitemapMarked, sitemapMarked,
      pyIn_lower_strip "mapa-do-site" u (by decide) (by decide),
      pyIn_lower_strip "sitemap" u (by decide) (by decide)]

theorem mapShape_prepend (pre u : String) (h : mapShape u = true) :
    mapShape (pre ++ u) = true := by
  have key : ∀ pat : List Char, hasSubL pat (u.data.map Char.toLower) = true →
      hasSubL pat ((pre ++ u).data.map Char.toLower) = true := by
    intro pat hp
    rw [data_append, List.map_append]
    exact hasSubL_append_right _ _ _ hp
  rw [mapShape] at h ⊢
  rw [Bool.or_eq_true, Bool.or_eq_true, Bool.or_eq_true] at h
  rcases h with ((h1 | h1) | h1) | h1
  · have := key "google.com/maps".data h1
    rw [show pyIn "google.com/maps" (pyLower (pre ++ u)) =
      hasSubL "google.com/maps".data ((pre ++ u).data.map Char.toLower) from rfl, this]
    rfl
  · have := key "maps.google".data h1
    rw [show pyIn "maps.google" (pyLower (pre ++ u)) =
      hasSubL "maps.google".data ((pre ++ u).data.map Char.toLower) from rfl, this]
    simp
  · rw [Bool.and_eq_true] at h1
    have k1 := key "/maps/".data h1.1
    have k2 := key "google".data h1.2
    rw [show pyIn "/maps/" (pyLower (pre ++ u)) =
      hasSubL "/maps/".data ((pre ++ u).data.map Char.toLower) from rfl, k1]
    rw [show pyIn "google" (pyLower (pre ++ u)) =
      hasSubL "google".data ((pre ++ u).data.map Char.toLower) from rfl, k2]
    simp
  · rw [Bool.and_eq_true] at h1
    have k1 := key "lat=".data h1.1
    have k2 := key "lng=".data h1.2
    rw [show pyIn "lat=" (pyLower (pre ++ u)) =
      hasSubL "lat=".data ((pre ++ u).data.map Char.toLower) from rfl, k1]
    rw [show pyIn "lng=" (pyLower (pre ++ u)) =
      hasSubL "lng=".data ((pre ++ u).data.map Char.toLower) from rfl, k2]
    simp

theorem sitemapMarked_prepend (pre u : String)
    (h1 : noSpan (pre.data.map Char.toLower) "mapa-do-site".data = true)
    (h2 : noSpan (pre.data.map Char.toLower) "sitemap".data = true) :
    sitemapMarked (pre ++ u) = sitemapMarked u := by
  rw [sitemapMarked, sitemapMarked]
  have e1 : pyIn "mapa-do-site" (pyLower (pre ++ u)) =
      pyIn "mapa-do-site" (pyLower u) := by
    show hasSubL _ ((pre ++ u).data.map Char.toLower) =
      hasSubL _ (u.data.map Char.toLower)
    rw [data_append, List.map_append]
    exact hasSubL_prepend_noSpan _ _ _ h1
  have e2 : pyIn "sitemap" (pyLower (pre ++ u)) = pyIn "sitemap" (pyLower u) := by
    show hasSubL _ ((pre ++ u).data.map Char.toLower) =
      hasSubL _ (u.data.map Char.toLower)
    rw [data_append, List.map_append]
    exact hasSubL_prepend_noSpan _ _ _ h2
  rw [e1, e2]

theorem validate_url_str_cases (u : String) :
    validate_url (.str u) = none ∨ validate_url (.str u) = some (pyStrip u) ∨
    validate_url (.str u) = some ("https:" ++ pyStrip u) ∨
    validate_url (.str u) = some ("https://www.vivareal.com.br" ++ pyStrip u) := by
  rw [validate_url]
  by_cases ht : pyTruthy (.str u) = true
  · rw [if_neg (by simp [ht])]
    simp only [show pyStr (.str u) = u from rfl]
    by_cases h1 : matchesUrlPattern (pyStrip u) = true
    · rw [if_pos h1]
      right; left; rfl
    · rw [if_neg h1]
      by_cases h2 : pyStarts (pyStrip u) "//" = true
      · rw [if_pos h2]
        right; right; left; rfl
      · rw [if_neg h2]
        by_cases h3 : pyStarts (pyStrip u) "/" = true
        · rw [if_pos h3]
          right; right; right; rfl
        · rw [if_neg h3]
          left; rfl
  · rw [if_pos (by simpa using ht)]
    left; rfl

theorem mapShape_mapsSearchUrl (parts : List String) :
    mapShape (mapsSearchUrl parts) = true := by
  rw [mapShape]
  have h : pyIn "google.com/maps" (pyLower (mapsSearchUrl parts)) = true := by
    show hasSubL "google.com/maps".data ((mapsSearchUrl parts).data.map Char.toLower) = true
    rw [show (mapsSearchUrl parts).data =
      "https://www.google.com/maps/search/?api=1&query=".data ++
        (pyReplaceSpacePlus
          ⟨joinSep [',', ' ']
            ((parts.filter fun p => !p.data.isEmpty).map String.data)⟩).data from rfl]
    rw [List.map_append]
    exact hasSubL_append_left _ _ _ (by decide)
  rw [h]
  rfl

theorem sitemapMarked_or_components (p : String) (h : sitemapMarked p = false) :
    hasSubL "mapa-do-site".data (p.data.map Char.toLower) = false ∧
    hasSubL "sitemap".data (p.data.map Char.toLower) = false := by
  rw [sitemapMarked] at h
  rcases Bool.or_eq_false_iff.mp h with ⟨ha, hb⟩
  exact ⟨ha, hb⟩

theorem sitemapMarked_mapsSearchUrl (parts : List String)
    (hp : ∀ p ∈ parts, sitemapMarked p = false) :
    sitemapMarked (mapsSearchUrl parts) = false := by
  have key : ∀ pat : List Char, pat ≠ [] → (',' : Char) ∉ pat → (' ' : Char) ∉ pat →
      ('+' : Char) ∉ pat →
      noSpan ("https://www.google.com/maps/search/?api=1&query=".data.map Char.toLower)
        pat = true →
      (∀ p ∈ parts, hasSubL pat (p.data.map Char.toLower) = false) →
      hasSubL pat ((mapsSearchUrl parts).data.map Char.toLower) = false := by
    intro pat hne hcm hsp hplus hnospan hparts
    rw [show (mapsSearchUrl parts).data =
      "https://www.google.com/maps/search/?api=1&query=".data ++
        ((joinSep [',', ' ']
          ((parts.filter fun p => !p.data.isEmpty).map String.data)).map
            fun c => if c = ' ' then '+' else c) from rfl]
    rw [List.map_append, hasSubL_prepend_noSpan pat _ _ hnospan]
    cases hcon : hasSubL pat
        (((joinSep [',', ' ']
          ((parts.filter fun p => !p.data.isEmpty).map String.data)).map
            fun c => if c = ' ' then '+' else c).map Char.toLower) with
    | false => rfl
    | true =>
      exfalso
      rw [List.map_map] at hcon
      have h2 : hasSubL pat
          ((joinSep [',', ' ']
            ((parts.filter fun p => !p.data.isEmpty).map String.data)).map
              Char.toLower) = true :=
        hasSubL_map_subLower pat _ hplus hcon
      rw [map_toLower_joinSep] at h2
      have h3 : hasSubL pat
          (joinSep [',', ' ']
            (((parts.filter fun p => !p.data.isEmpty).map String.data).map
              (fun p => p.map Char.toLower))) = false := by
        refine hasSubL_joinSep pat _ hne hcm hsp ?_
        intro q hq
        rw [List.map_map, List.mem_map] at hq
        obtain ⟨p, hpmem, rfl⟩ := hq
        exact hparts p (List.mem_of_mem_filter hpmem)
      rw [h3] at h2
      exact absurd h2 (by simp)
  rw [sitemapMarked]
  rw [show pyIn "mapa-do-site" (pyLower (mapsSearchUrl parts)) =
    hasSubL "mapa-do-site".data ((mapsSearchUrl parts).data.map Char.toLower) from rfl]
  rw [show pyIn "sitemap" (pyLower (mapsSearchUrl parts)) =
    hasSubL "sitemap".data ((mapsSearchUrl parts).data.map Char.toLower) from rfl]
  rw [key "mapa-do-site".data (by decide) (by decide) (by decide) (by decide)
        (by decide) (fun p hpm => (sitemapMarked_or_components p (hp p hpm)).1),
      key "sitemap".data (by decide) (by decide) (by decide) (by decide)
        (by decide) (fun p hpm => (sitemapMarked_or_components p (hp p hpm)).2)]
  rfl

theorem mapShape_of_google_sub (u : String) (h : pyIn "google.com/maps" u = true) :
    mapShape u = true := by
  rw [mapShape]
  have h2 : pyIn "google.com/maps" (pyLower u) = true := by
    show hasSubL "google.com/maps".data (u.data.map Char.toLower) = true
    exact hasSubL_toLower _ _ (by decide) h
  rw [h2]
  rfl

theorem acceptMapCandidate_spec (u v : String) (h : acceptMapCandidate u = some v) :
    mapShape v = true ∧ sitemapMarked v = false := by
  rw [acceptMapCandidate] at h
  by_cases h1 : (pyIn "mapa-do-site" (pyLower u) || pyIn "sitemap" (pyLower u)) = true
  · rw [if_pos h1] at h
    exact absurd h (by simp)
  · rw [if_neg h1] at h
    have hm : sitemapMarked u = false := by
      rw [sitemapMarked]
      exact Bool.eq_false_iff.mpr h1
    by_cases h2 : (pyIn "google.com/maps" (pyLower u) || pyIn "maps.google" (pyLower u) ||
        (pyIn "/maps/" (pyLower u) && pyIn "google" (pyLower u)) ||
        (pyIn "lat=" (pyLower u) && pyIn "lng=" (pyLower u))) = true
    · rw [if_pos h2] at h
      have hs : mapShape u = true := by rw [mapShape]; exact h2
      by_cases h3 : pyStarts u "//" = true
      · rw [if_pos h3] at h
        obtain rfl : _ = v := Option.some.inj h
        refine ⟨mapShape_prepend "https:" u hs, ?_⟩
        rw [sitemapMarked_prepend "https:" u (by decide) (by decide)]
        exact hm
      · rw [if_neg h3] at h
        by_cases h4 : pyStarts u "/" = true
        · rw [if_pos h4] at h
          exact absurd h (by simp)
        · rw [if_neg h4] at h
          obtain rfl : _ = v := Option.some.inj h
          exact ⟨hs, hm⟩
    · rw [if_neg h2] at h
      exact absurd h (by simp)

theorem acceptTextCandidate_spec (u v : String) (h : acceptTextCandidate u = some v) :
    mapShape v = true ∧ sitemapMarked v = false := by
  rw [acceptTextCandidate] at h
  by_cases h1 : (pyIn "mapa-do-site" (pyLower u) || pyIn "sitemap" (pyLower u)) = true
  · rw [if_pos h1] at h
    exact absurd h (by simp)
  · rw [if_neg h1] at h
    have hm : sitemapMarked u = false := by
      rw [sitemapMarked]
      exact Bool.eq_false_iff.mpr h1
    by_cases h2 : (pyIn "google.com/maps" (pyLower u) || pyIn "maps.google" (pyLower u)) = true
    · rw [if_pos h2] at h
      have hs : mapShape u = true := by
        rw [mapShape]
        rw [Bool.or_eq_true] at h2
        rcases h2 with h3 | h3
        · rw [h3]; rfl
        · rw [h3]; simp
      by_cases h3 : pyStarts u "//" = true
      · rw [if_pos h3] at h
        obtain rfl : _ = v := Option.some.inj h
        refine ⟨mapShape_prepend "https:" u hs, ?_⟩
        rw [sitemapMarked_prepend "https:" u (by decide) (by decide)]
        exact hm
      · rw [if_neg h3] at h
        obtain rfl : _ = v := Option.some.inj h
        exact ⟨hs, hm⟩
    · rw [if_neg h2] at h
      exact absurd h (by simp)

/-! ## Phase lemmas for extract_location_tail -/

/-- Every map link the location holds is map-shaped. -/
def ShapeInv (loc : Loc) : Prop :=
  ∀ v, loc.map_link = some v → mapShape v = true

/-- No map link the location holds is sitemap-marked. -/
def MarkerInv (loc : Loc) : Prop :=
  ∀ v, loc.map_link = some v → sitemapMarked v = false

/-- None of the address parts is sitemap-marked. -/
def PartsClean (loc : Loc) : Prop :=
  (∀ s, loc.street = some s → sitemapMarked s = false) ∧
  (∀ s, loc.number = some s → sitemapMarked s = false) ∧
  (∀ s, loc.neighborhood = some s → sitemapMarked s = false) ∧
  (∀ s, loc.city = some s → sitemapMarked s = false)

theorem mapCandPhase_link_spec (loc0 : Loc) (mc tc : List String) (v : String)
    (hv : (mapCandPhase loc0 mc tc).map_link = some v) :
    mapShape v = true ∧ sitemapMarked v = false := by
  rw [mapCandPhase] at hv
  simp only at hv
  cases hfs : mc.findSome? acceptMapCandidate with
  | some m =>
    rw [hfs] at hv
    have hvm : m = v := Option.some.inj hv
    obtain ⟨a, _, ha⟩ := List.exists_of_findSome?_eq_some hfs
    rw [← hvm]
    exact acceptMapCandidate_spec a m ha
  | none =>
    rw [hfs] at hv
    obtain ⟨a, _, ha⟩ := List.exists_of_findSome?_eq_some hv
    exact acceptTextCandidate_spec a v ha

theorem mapCandPhase_shape (loc0 : Loc) (mc tc : List String) :
    ShapeInv (mapCandPhase loc0 mc tc) ∧ MarkerInv (mapCandPhase loc0 mc tc) :=
  ⟨fun v hv => (mapCandPhase_link_spec loc0 mc tc v hv).1,
   fun v hv => (mapCandPhase_link_spec loc0 mc tc v hv).2⟩

theorem mapCandPhase_parts (loc0 : Loc) (mc tc : List String) :
    (mapCandPhase loc0 mc tc).street = loc0.street ∧
    (mapCandPhase loc0 mc tc).number = loc0.number ∧
    (mapCandPhase loc0 mc tc).neighborhood = loc0.neighborhood ∧
    (mapCandPhase loc0 mc tc).city = loc0.city :=
  ⟨rfl, rfl, rfl, rfl⟩

theorem partsOf_marker (l : List (Option String))
    (h : ∀ o ∈ l, ∀ s, o = some s → sitemapMarked s = false) :
    ∀ p ∈ partsOf l, sitemapMarked p = false := by
  intro p hp
  rw [partsOf, List.mem_filterMap] at hp
  obtain ⟨o, ho, hop⟩ := hp
  cases o with
  | none => exact absurd hop (by simp)
  | some s =>
    have hop2 : (if (!s.data.isEmpty) = true then some s else none) = some p := hop
    by_cases hs : s.data.isEmpty = true
    · rw [if_neg (by simp [hs])] at hop2
      exact absurd hop2 (by simp)
    · rw [if_pos (by simp [hs])] at hop2
      obtain rfl : s = p := Option.some.inj hop2
      exact h (some s) ho s rfl

theorem constructPhase_shape (loc : Loc) (h : ShapeInv loc) :
    ShapeInv (constructPhase loc) := by
  intro v hv
  rw [constructPhase] at hv
  split at hv
  · split at hv
    · simp only at hv
      obtain rfl : _ = v := Option.some.inj hv
      exact mapShape_mapsSearchUrl _
    · exact h v hv
  · exact h v hv

theorem constructPhase_marker (loc : Loc) (hm : MarkerInv loc) (hp : PartsClean loc) :
    MarkerInv (constructPhase loc) := by
  intro v hv
  rw [constructPhase] at hv
  split at hv
  · split at hv
    · simp only at hv
      obtain rfl : _ = v := Option.some.inj hv
      refine sitemapMarked_mapsSearchUrl _ ?_
      refine partsOf_marker _ ?_
      intro o ho s hos
      subst hos
      simp only [List.mem_cons, List.not_mem_nil, or_false] at ho
      rcases ho with ho | ho | ho | ho
      · exact hp.1 s ho.symm
      · exact hp.2.1 s ho.symm
      · exact hp.2.2.1 s ho.symm
      · exact hp.2.2.2 s ho.symm
    · exact hm v hv
  · exact hm v hv

theorem constructPhase_parts (loc : Loc) :
    (constructPhase loc).street = loc.street ∧
    (constructPhase loc).number = loc.number ∧
    (constructPhase loc).neighborhood = loc.neighborhood ∧
    (constructPhase loc).city = loc.city := by
  rw [constructPhase]
  split
  · split <;> exact ⟨rfl, rfl, rfl, rfl⟩
  · exact ⟨rfl, rfl, rfl, rfl⟩

theorem mergeRestAi_link (loc ai : Loc) :
    (mergeRestAi loc ai).map_link = loc.map_link ∨
    ∃ u, ai.map_link = some u ∧ pyIn "google.com/maps" u = true ∧
      (mergeRestAi loc ai).map_link = some u := by
  have e : (mergeRestAi loc ai).map_link =
      (match ai.map_link with
       | some m => if !m.data.isEmpty && pyIn "google.com/maps" m then some m
                   else loc.map_link
       | none => loc.map_link) := rfl
  rw [e]
  cases ai.map_link with
  | none => left; rfl
  | some m =>
    by_cases hc : (!m.data.isEmpty && pyIn "google.com/maps" m) = true
    · right
      refine ⟨m, rfl, ?_, ?_⟩
      · have hc2 := hc
        rw [Bool.and_eq_true] at hc2
        exact hc2.2
      · show (if (!m.data.isEmpty && pyIn "google.com/maps" m) = true then some m
          else loc.map_link) = some m
        rw [if_pos hc]
    · left
      show (if (!m.data.isEmpty && pyIn "google.com/maps" m) = true then some m
        else loc.map_link) = loc.map_link
      rw [if_neg hc]

theorem mergeRestAi_parts (loc ai : Loc) :
    ((mergeRestAi loc ai).street = loc.street ∨ (mergeRestAi loc ai).street = ai.street) ∧
    ((mergeRestAi loc ai).number = loc.number ∨ (mergeRestAi loc ai).number = ai.number) ∧
    ((mergeRestAi loc ai).neighborhood = loc.neighborhood ∨
      (mergeRestAi loc ai).neighborhood = ai.neighborhood) ∧
    (mergeRestAi loc ai).city = loc.city := by
  refine ⟨?_, ?_, ?_, rfl⟩
  · have e : (mergeRestAi loc ai).street =
        (if truthyS ai.street && !truthyS loc.street then ai.street
         else loc.street) := rfl
    rw [e]
    split
    · right; rfl
    · left; rfl
  · have e : (mergeRestAi loc ai).number =
        (if truthyS ai.number && !truthyS loc.number then ai.number
         else loc.number) := rfl
    rw [e]
    split
    · right; rfl
    · left; rfl
  · have e : (mergeRestAi loc ai).neighborhood =
        (if truthyS ai.neighborhood && !truthyS loc.neighborhood then ai.neighborhood
         else loc.neighborhood) := rfl
    rw [e]
    split
    · right; rfl
    · left; rfl

theorem mergeAiLocation_cases (loc ai : Loc) :
    mergeAiLocation loc ai = loc ∨
    mergeAiLocation loc ai = mergeRestAi loc ai ∨
    ∃ c, ai.city = some c ∧
      mergeAiLocation loc ai = mergeRestAi { loc with city := some c } ai := by
  cases hac : ai.city with
  | none =>
    have e : mergeAiLocation loc ai = mergeRestAi loc ai := by
      rw [mergeAiLocation, hac]
    rw [e]
    right; left; rfl
  | some c =>
    have e : mergeAiLocation loc ai =
        (if (!c.data.isEmpty) = true then
          (match loc.city with
           | none => loc
           | some s =>
             mergeRestAi (if s.length < c.length then { loc with city := some c }
               else loc) ai)
         else mergeRestAi loc ai) := by
      rw [mergeAiLocation, hac]
    rw [e]
    by_cases hce : (!c.data.isEmpty) = true
    · rw [if_pos hce]
      cases hlc : loc.city with
      | none =>
        left; rfl
      | some s =>
        have e2 : (match (some s : Option String) with
            | none => loc
            | some s =>
              mergeRestAi (if s.length < c.length then { loc with city := some c }
                else loc) ai) =
            mergeRestAi (if s.length < c.length then { loc with city := some c }
              else loc) ai := rfl
        rw [e2]
        by_cases hlen : s.length < c.length
        · rw [if_pos hlen]
          right; right
          exact ⟨c, rfl, rfl⟩
        · rw [if_neg hlen]
          right; left
          rfl
    · rw [if_neg hce]
      right; left
      rfl

theorem aiPhase_shape (loc : Loc) (u : Bool) (ai : Option Loc) (h : ShapeInv loc) :
    ShapeInv (aiPhase loc u ai) := by
  intro v hv
  rw [aiPhase.eq_def] at hv
  split at hv
  · cases ai with
    | none => exact h v hv
    | some a =>
      simp only at hv
      rcases mergeAiLocation_cases loc a with hc | hc | ⟨c, _, hc⟩ <;> rw [hc] at hv
      · exact h v hv
      · rcases mergeRestAi_link loc a with hl | ⟨w, _, hg, hl⟩ <;> rw [hl] at hv
        · exact h v hv
        · obtain rfl : w = v := Option.some.inj hv
          exact mapShape_of_google_sub w hg
      · rcases mergeRestAi_link { loc with city := some c } a with hl | ⟨w, _, hg, hl⟩ <;>
          rw [hl] at hv
        · exact h v hv
        · obtain rfl : w = v := Option.some.inj hv
          exact mapShape_of_google_sub w hg
  · exact h v hv

theorem aiPhase_marker (loc : Loc) (u : Bool) (ai : Option Loc) (hm : MarkerInv loc)
    (hai : ∀ a, ai = some a → ∀ v, a.map_link = some v → sitemapMarked v = false) :
    MarkerInv (aiPhase loc u ai) := by
  intro v hv
  rw [aiPhase.eq_def] at hv
  split at hv
  · cases ai with
    | none => exact hm v hv
    | some a =>
      simp only at hv
      rcases mergeAiLocation_cases loc a with hc | hc | ⟨c, _, hc⟩ <;> rw [hc] at hv
      · exact hm v hv
      · rcases mergeRestAi_link loc a with hl | ⟨w, hw, _, hl⟩ <;> rw [hl] at hv
        · exact hm v hv
        · obtain rfl : w = v := Option.some.inj hv
          exact hai a rfl w hw
      · rcases mergeRestAi_link { loc with city := some c } a with hl | ⟨w, hw, _, hl⟩ <;>
          rw [hl] at hv
        · exact hm v hv
        · obtain rfl : w = v := Option.some.inj hv
          exact hai a rfl w hw
  · exact hm v hv

theorem aiPhase_parts (loc : Loc) (u : Bool) (ai : Option Loc) (hp : PartsClean loc)
    (hai : ∀ a, ai = some a → PartsClean a) :
    PartsClean (aiPhase loc u ai) := by
  rw [aiPhase.eq_def]
  split
  · cases ai with
    | none => exact hp
    | some a =>
      simp only
      have hpa := hai a rfl
      rcases mergeAiLocation_cases loc a with hc | hc | ⟨c, hac, hc⟩ <;> rw [hc]
      · exact hp
      · obtain ⟨hs, hn, hb, hcity⟩ := mergeRestAi_parts loc a
        refine ⟨?_, ?_, ?_, ?_⟩
        · rcases hs with h2 | h2 <;> rw [h2]
          · exact hp.1
          · exact hpa.1
        · rcases hn with h2 | h2 <;> rw [h2]
          · exact hp.2.1
          · exact hpa.2.1
        · rcases hb with h2 | h2 <;> rw [h2]
          · exact hp.2.2.1
          · exact hpa.2.2.1
        · rw [hcity]
          exact hp.2.2.2
      · obtain ⟨hs, hn, hb, hcity⟩ := mergeRestAi_parts { loc with city := some c } a
        refine ⟨?_, ?_, ?_, ?_⟩
        · rcases hs with h2 | h2 <;> rw [h2]
          · exact hp.1
          · exact hpa.1
        · rcases hn with h2 | h2 <;> rw [h2]
          · exact hp.2.1
          · exact hpa.2.1
        · rcases hb with h2 | h2 <;> rw [h2]
          · exact hp.2.2.1
          · exact hpa.2.2.1
        · rw [hcity]
          intro s hsc
          have : c = s := Option.some.inj hsc
          subst this
          exact hpa.2.2.2 c hac
  · exact hp

theorem finalParts_marker (loc : Loc) (hp : PartsClean loc) :
    ∀ p ∈ finalParts loc, sitemapMarked p = false := by
  intro p hmem
  rw [finalParts, List.mem_append] at hmem
  rcases hmem with hmem | hmem
  · refine partsOf_marker _ ?_ p hmem
    intro o ho s hos
    subst hos
    simp only [List.mem_cons, List.not_mem_nil, or_false] at ho
    rcases ho with ho | ho | ho
    · exact hp.1 s ho.symm
    · exact hp.2.1 s ho.symm
    · exact hp.2.2.1 s ho.symm
  · cases hc : loc.city with
    | none =>
      rw [hc] at hmem
      simp at hmem
    | some c =>
      rw [hc] at hmem
      have hmem2 : p ∈ (if !c.data.isEmpty && c ≠ "São" then [c] else []) := hmem
      split at hmem2
      · rw [List.mem_singleton] at hmem2
        subst hmem2
        exact hp.2.2.2 p hc
      · simp at hmem2

theorem finalPhase_shape (loc : Loc) (h : ShapeInv loc) :
    ShapeInv (finalPhase loc) := by
  intro v hv
  rw [finalPhase] at hv
  split at hv
  · split at hv
    · simp only at hv
      obtain rfl : _ = v := Option.some.inj hv
      exact mapShape_mapsSearchUrl _
    · exact h v hv
  · exact h v hv

theorem finalPhase_marker (loc : Loc) (hm : MarkerInv loc) (hp : PartsClean loc) :
    MarkerInv (finalPhase loc) := by
  intro v hv
  rw [finalPhase] at hv
  split at hv
  · split at hv
    · simp only at hv
      obtain rfl : _ = v := Option.some.inj hv
      exact sitemapMarked_mapsSearchUrl _ (finalParts_marker loc hp)
    · exact hm v hv
  · exact hm v hv

theorem extract_location_tail_shape (loc0 : Loc) (mc tc : List String)
    (u : Bool) (ai : Option Loc) :
    ShapeInv (extract_location_tail loc0 mc tc u ai) := by
  rw [extract_location_tail]
  exact finalPhase_shape _ (aiPhase_shape _ _ _
    (constructPhase_shape _ (mapCandPhase_shape loc0 mc tc).1))

theorem extract_location_tail_marker (loc0 : Loc) (mc tc : List String)
    (u : Bool) (ai : Option Loc)
    (hp0 : PartsClean loc0)
    (hai : ∀ a, ai = some a → PartsClean a ∧
      ∀ v, a.map_link = some v → sitemapMarked v = false) :
    MarkerInv (extract_location_tail loc0 mc tc u ai) := by
  rw [extract_location_tail]
  have hp1 : PartsClean (mapCandPhase loc0 mc tc) := by
    obtain ⟨e1, e2, e3, e4⟩ := mapCandPhase_parts loc0 mc tc
    exact ⟨by rw [e1]; exact hp0.1, by rw [e2]; exact hp0.2.1,
           by rw [e3]; exact hp0.2.2.1, by rw [e4]; exact hp0.2.2.2⟩
  have hp2 : PartsClean (constructPhase (mapCandPhase loc0 mc tc)) := by
    obtain ⟨e1, e2, e3, e4⟩ := constructPhase_parts (mapCandPhase loc0 mc tc)
    exact ⟨by rw [e1]; exact hp1.1, by rw [e2]; exact hp1.2.1,
           by rw [e3]; exact hp1.2.2.1, by rw [e4]; exact hp1.2.2.2⟩
  have hp3 : PartsClean (aiPhase (constructPhase (mapCandPhase loc0 mc tc)) u ai) :=
    aiPhase_parts _ u ai hp2 (fun a ha => (hai a ha).1)
  refine finalPhase_marker _ ?_ hp3
  refine aiPhase_marker _ u ai ?_ (fun a ha => (hai a ha).2)
  exact constructPhase_marker _ (mapCandPhase_shape loc0 mc tc).2 hp1

/-- Inversion of a successful clean: the pure (never-failing) fields of
the output record in terms of the input. -/
theorem clean_data_ok_proj (d : RawRecord) (r : Record) (h : clean_data d = .ok r) :
    r.url = validate_url d.url ∧
    r.location = (match d.location with
      | RawVal.dict entries => clean_location (dictGet entries)
      | _ => {}) ∧
    r.images = cleanImages d.images := by
  rw [clean_data] at h
  cases e1 : validate_int_value d.size_m2 1 none with
  | error e => rw [e1, except_bind_error] at h; exact absurd h (by simp)
  | ok size_m2 =>
  rw [e1, except_bind_ok] at h
  cases e2 : validate_int_value d.bedrooms 0 none with
  | error e => rw [e2, except_bind_error] at h; exact absurd h (by simp)
  | ok bedrooms =>
  rw [e2, except_bind_ok] at h
  cases e3 : validate_int_value d.suites 0 none with
  | error e => rw [e3, except_bind_error] at h; exact absurd h (by simp)
  | ok suites =>
  rw [e3, except_bind_ok] at h
  cases e4 : validate_int_value d.bathrooms 0 none with
  | error e => rw [e4, except_bind_error] at h; exact absurd h (by simp)
  | ok bathrooms =>
  rw [e4, except_bind_ok] at h
  cases e5 : validate_int_value d.garage 0 none with
  | error e => rw [e5, except_bind_error] at h; exact absurd h (by simp)
  | ok garage =>
  rw [e5, except_bind_ok] at h
  obtain rfl : _ = r := Except.ok.inj h
  exact ⟨rfl, rfl, rfl⟩

/-! ## Claim C6 -/

/-- C6 (amended): for every record whose location comes from the Location
Resolver, the cleaned `map_link` is either absent or map-service-shaped
(Google-Maps-marked or carrying lat/lng parameters, which covers the
synthesized search URLs); and it carries no sitemap marker provided the
address parts gathered before the AI phase and the AI oracle's returned
address parts and map link are themselves sitemap-free.  (As stated in
the spec the sitemap exclusion is unconditional; that fails: an
AI-returned Google-Maps-shaped link containing `mapa-do-site` survives
when fewer than two address parts are available — see the
counterexample.) -/
theorem C6_maplink_amended (loc0 : Loc) (mapCands textCands : List String)
    (use_ai : Bool) (ai : Option Loc) (d : RawRecord) (r : Record)
    (hd : d.location =
      (extract_location_tail loc0 mapCands textCands use_ai ai).toRawDict)
    (h : clean_data d = .ok r) :
    (∀ m, r.location.map_link = some m → mapShape m = true) ∧
    (PartsClean loc0 →
     (∀ a, ai = some a → PartsClean a ∧
       ∀ v, a.map_link = some v → sitemapMarked v = false) →
     ∀ m, r.location.map_link = some m → sitemapMarked m = false) := by
  obtain ⟨-, hloc, -⟩ := clean_data_ok_proj d r h
  rw [hd] at hloc
  have hloc2 : r.location = clean_location (dictGet (locDictEntries
      (extract_location_tail loc0 mapCands textCands use_ai ai))) := hloc
  have hml : r.location.map_link = validate_url (optStrVal
      (extract_location_tail loc0 mapCands textCands use_ai ai).map_link) := by
    rw [hloc2]
    rfl
  constructor
  · intro m hm
    rw [hml] at hm
    cases hLml : (extract_location_tail loc0 mapCands textCands use_ai ai).map_link with
    | none =>
      rw [hLml] at hm
      exact absurd (show (none : Option String) = some m from hm) (by simp)
    | some v =>
      rw [hLml] at hm
      have hm2 : validate_url (.str v) = some m := hm
      have hshape : mapShape v = true :=
        extract_location_tail_shape loc0 mapCands textCands use_ai ai v hLml
      rcases validate_url_str_cases v with hc | hc | hc | hc <;> rw [hc] at hm2
      · exact absurd hm2 (by simp)
      · obtain rfl : _ = m := Option.some.inj hm2
        rw [mapShape_strip]
        exact hshape
      · obtain rfl : _ = m := Option.some.inj hm2
        exact mapShape_prepend "https:" (pyStrip v)
          (by rw [mapShape_strip]; exact hshape)
      · obtain rfl : _ = m := Option.some.inj hm2
        exact mapShape_prepend "https://www.vivareal.com.br" (pyStrip v)
          (by rw [mapShape_strip]; exact hshape)
  · intro hp0 hai m hm
    rw [hml] at hm
    cases hLml : (extract_location_tail loc0 mapCands textCands use_ai ai).map_link with
    | none =>
      rw [hLml] at hm
      exact absurd (show (none : Option String) = some m from hm) (by simp)
    | some v =>
      rw [hLml] at hm
      have hm2 : validate_url (.str v) = some m := hm
      have hmarker : sitemapMarked v = false :=
        extract_location_tail_marker loc0 mapCands textCands use_ai ai hp0 hai v hLml
      rcases validate_url_str_cases v with hc | hc | hc | hc <;> rw [hc] at hm2
      · exact absurd hm2 (by simp)
      · obtain rfl : _ = m := Option.some.inj hm2
        rw [sitemapMarked_strip]
        exact hmarker
      · obtain rfl : _ = m := Option.some.inj hm2
        rw [sitemapMarked_prepend "https:" (pyStrip v) (by decide) (by decide),
            sitemapMarked_strip]
        exact hmarker
      · obtain rfl : _ = m := Option.some.inj hm2
        rw [sitemapMarked_prepend "https://www.vivareal.com.br" (pyStrip v)
              (by decide) (by decide),
            sitemapMarked_strip]
        exact hmarker

/-- The AI oracle outcome of the C6 counterexample: a Google-Maps-shaped
link that carries the sitemap marker. -/
def c6CexAi : Loc := { map_link := some "https://www.google.com/maps/mapa-do-site" }

/-- The raw record of the C6 counterexample: the resolver ran with a
truncated city (`São`), no candidates, and the tainted AI link; fewer
than two address parts are available, so the final fallback cannot
replace the tainted link. -/
def c6CexRaw : RawRecord :=
  { location := (extract_location_tail { city := some "São" } [] [] true
      (some c6CexAi)).toRawDict }

/-- C6 counterexample: the cleaned record's `map_link` contains the
sitemap marker `mapa-do-site`, refuting the unconditional exclusion
claimed by the spec. -/
theorem C6_counterexample :
    (clean_data c6CexRaw).toOption.map (fun r => r.location.map_link) =
      some (some "https://www.google.com/maps/mapa-do-site") ∧
    sitemapMarked "https://www.google.com/maps/mapa-do-site" = true := by
  constructor
  · rfl
  · decide

/-- The accepted candidate URL of the C6 witness. -/
def c6wUrl : String := "https://maps.google.com/x"

/-- The raw record of the C6 witness: the resolver accepted a candidate
from the selector scan. -/
def c6wRaw : RawRecord :=
  { location := (extract_location_tail {} [c6wUrl] [] false none).toRawDict }

/-- The cleaned record of the C6 witness. -/
def c6wRec : Record :=
  { url := none, scraped_at := .none, property_type := none, category := none,
    modality := none, price := none, size_m2 := none, bedrooms := none,
    suites := none, bathrooms := none, garage := none,
    location := { map_link := some c6wUrl },
    description := none, advertiser_code := none, vivareal_code := none,
    images := [] }

/-- C6 witness: on a concrete resolver run the accepted map link is
map-shaped and sitemap-free. -/
theorem C6_witness :
    mapShape c6wUrl = true ∧ sitemapMarked c6wUrl = false := by
  have happ := C6_maplink_amended {} [c6wUrl] [] false none c6wRaw c6wRec rfl rfl
  have hp0 : PartsClean ({} : Loc) :=
    ⟨fun s hs => Option.noConfusion hs, fun s hs => Option.noConfusion hs,
     fun s hs => Option.noConfusion hs, fun s hs => Option.noConfusion hs⟩
  constructor
  · exact happ.1 c6wUrl rfl
  · exact happ.2 hp0 (fun a ha => Option.noConfusion ha) c6wUrl rfl


/-! ## Claim C1 -/

/-- The zipcode shape `DDDDD-DDD` named by the spec: five digits, a
hyphen, three digits. -/
def isZip53 (s : String) : Bool :=
  decide (s.data.length = 9) && (s.data.take 5).all Char.isDigit &&
    decide ((s.data.drop 5).take 1 = ['-']) && (s.data.drop 6).all Char.isDigit

/-- The second shape `DDDD-DDD` actually produced by `normalize_zipcode`
on seven-digit inputs (validators.py lines 29-30): four digits, a hyphen,
three digits. -/
def isZip43 (s : String) : Bool :=
  decide (s.data.length = 8) && (s.data.take 4).all Char.isDigit &&
    decide ((s.data.drop 4).take 1 = ['-']) && (s.data.drop 5).all Char.isDigit

theorem zip_shape_parts (D : List Char) (n : Nat) (hD : ∀ c ∈ D, c.isDigit = true)
    (hlen : D.length = n + 3) :
    (D.take n ++ '-' :: D.drop n).length = n + 4 ∧
    ((D.take n ++ '-' :: D.drop n).take n).all Char.isDigit = true ∧
    ((D.take n ++ '-' :: D.drop n).drop n).take 1 = ['-'] ∧
    ((D.take n ++ '-' :: D.drop n).drop (n + 1)).all Char.isDigit = true := by
  have hT : (D.take n).length = n := by
    rw [List.length_take]
    omega
  have hdropn : (D.take n ++ '-' :: D.drop n).drop n = '-' :: D.drop n :=
    List.drop_left' hT
  refine ⟨?_, ?_, ?_, ?_⟩
  · rw [List.length_append, hT, List.length_cons, List.length_drop, hlen]
    omega
  · rw [List.take_left' hT, List.all_eq_true]
    intro c hc
    exact hD c (List.mem_of_mem_take hc)
  · rw [hdropn]
    rfl
  · have h2 : (D.take n ++ '-' :: D.drop n).drop (n + 1) = D.drop n := by
      rw [← List.drop_drop, hdropn]
      rfl
    rw [h2, List.all_eq_true]
    intro c hc
    exact hD c (List.mem_of_mem_drop hc)

theorem normalize_zipcode_shape (v : RawVal) (s : String)
    (h : normalize_zipcode v = some s) :
    isZip53 s = true ∨ isZip43 s = true := by
  rw [normalize_zipcode] at h
  by_cases ht : (!pyTruthy v) = true
  · rw [if_pos ht] at h
    exact absurd h (by simp)
  · rw [if_neg ht] at h
    have hD : ∀ c ∈ (pyStr v).data.filter Char.isDigit, c.isDigit = true :=
      fun c hc => (List.mem_filter.mp hc).2
    have h2 : (if ((pyStr v).data.filter Char.isDigit).length = 8 then
        some (⟨((pyStr v).data.filter Char.isDigit).take 5 ++
          '-' :: ((pyStr v).data.filter Char.isDigit).drop 5⟩ : String)
      else if ((pyStr v).data.filter Char.isDigit).length = 7 then
        some (⟨((pyStr v).data.filter Char.isDigit).take 4 ++
          '-' :: ((pyStr v).data.filter Char.isDigit).drop 4⟩ : String)
      else none) = some s := h
    by_cases h8 : ((pyStr v).data.filter Char.isDigit).length = 8
    · rw [if_pos h8] at h2
      obtain rfl : _ = s := Option.some.inj h2
      left
      obtain ⟨hl, ha, hd, hb⟩ :=
        zip_shape_parts ((pyStr v).data.filter Char.isDigit) 5 hD (by omega)
      simp only [isZip53, Bool.and_eq_true, decide_eq_true_eq]
      exact ⟨⟨⟨hl, ha⟩, hd⟩, hb⟩
    · rw [if_neg h8] at h2
      by_cases h7 : ((pyStr v).data.filter Char.isDigit).length = 7
      · rw [if_pos h7] at h2
        obtain rfl : _ = s := Option.some.inj h2
        right
        obtain ⟨hl, ha, hd, hb⟩ :=
          zip_shape_parts ((pyStr v).data.filter Char.isDigit) 4 hD (by omega)
        simp only [isZip43, Bool.and_eq_true, decide_eq_true_eq]
        exact ⟨⟨⟨hl, ha⟩, hd⟩, hb⟩
      · rw [if_neg h7] at h2
        exact absurd h2 (by simp)

/-- C1 (corrected): the zipcode of a cleaned record's location is either
absent or of shape `DDDDD-DDD` **or of shape `DDDD-DDD`** — the source
also formats seven-digit inputs, as `DDDD-DDD` (validators.py lines
29-30), so the spec's universal `DDDDD-DDD` shape fails (see the
counterexample); the spec's two examples (`"01310100"` → `"01310-100"`,
`"123"` → absent) and the absence of partial digit strings do hold. -/
theorem C1_zipcode_amended :
    (∀ (d : RawRecord) (r : Record) (s : String), clean_data d = .ok r →
      r.location.zipcode = some s → isZip53 s = true ∨ isZip43 s = true) ∧
    normalize_zipcode (.str "01310100") = some "01310-100" ∧
    normalize_zipcode (.str "123") = none := by
  refine ⟨?_, rfl, rfl⟩
  intro d r s h hz
  obtain ⟨-, hloc, -⟩ := clean_data_ok_proj d r h
  have hz2 : (match d.location with
      | RawVal.dict entries => clean_location (dictGet entries)
      | _ => ({} : Loc)).zipcode = some s := by
    rw [← hloc]
    exact hz
  cases hdl : d.location with
  | dict entries =>
    rw [hdl] at hz2
    have hz4 : normalize_zipcode (dictGet entries "zipcode") = some s := hz2
    exact normalize_zipcode_shape (dictGet entries "zipcode") s hz4
  | none =>
    rw [hdl] at hz2
    exact Option.noConfusion (show (none : Option String) = some s from hz2)
  | int n =>
    rw [hdl] at hz2
    exact Option.noConfusion (show (none : Option String) = some s from hz2)
  | float f =>
    rw [hdl] at hz2
    exact Option.noConfusion (show (none : Option String) = some s from hz2)
  | str t =>
    rw [hdl] at hz2
    exact Option.noConfusion (show (none : Option String) = some s from hz2)
  | list l =>
    rw [hdl] at hz2
    exact Option.noConfusion (show (none : Option String) = some s from hz2)

/-- The raw record of the C1 counterexample: a seven-digit zipcode. -/
def c1CexRaw : RawRecord := { location := .dict [("zipcode", .str "1234567")] }

/-- C1 counterexample: a seven-digit raw zipcode survives cleaning as
`"1234-567"`, which does not match the spec's `DDDDD-DDD` pattern. -/
theorem C1_counterexample :
    (clean_data c1CexRaw).toOption.map (fun r => r.location.zipcode) =
      some (some "1234-567") ∧
    isZip53 "1234-567" = false := by
  constructor
  · rfl
  · decide

/-- The raw record of the C1 witness: the spec's own example input. -/
def c1wRaw : RawRecord := { location := .dict [("zipcode", .str "01310100")] }

/-- The cleaned record of the C1 witness. -/
def c1wRec : Record :=
  { url := none, scraped_at := .none, property_type := none, category := none,
    modality := none, price := none, size_m2 := none, bedrooms := none,
    suites := none, bathrooms := none, garage := none,
    location := { zipcode := some "01310-100" },
    description := none, advertiser_code := none, vivareal_code := none,
    images := [] }

/-- C1 witness: the cleaned zipcode of the spec's example input has one of
the two produced shapes. -/
theorem C1_witness :
    isZip53 "01310-100" = true ∨ isZip43 "01310-100" = true :=
  C1_zipcode_amended.1 c1wRaw c1wRec "01310-100" rfl rfl


/-! ## Claim C9 -/

/-- A raw value on which Python `int()` cannot raise inside
`validate_int_value`: anything but a non-finite float. -/
def intSafe : RawVal → Bool
  | .float .nan => false
  | .float .inf => false
  | .float .ninf => false
  | _ => true

theorem validate_int_value_ok (v : RawVal) (min_val : Int) (max_val : Option Int)
    (h : intSafe v = true) :
    ∃ o, validate_int_value v min_val max_val = .ok o := by
  cases v with
  | none => exact ⟨none, rfl⟩
  | int n => exact ⟨_, rfl⟩
  | float f =>
    cases f with
    | finite q => exact ⟨_, rfl⟩
    | nan => exact absurd h (by decide)
    | inf => exact absurd h (by decide)
    | ninf => exact absurd h (by decide)
  | str s =>
    have e : validate_int_value (.str s) min_val max_val =
        (if (s.data.filter Char.isDigit).isEmpty then Except.ok none
         else .ok (intBounds (natOfDigits (s.data.filter Char.isDigit))
           min_val max_val)) := rfl
    rw [e]
    by_cases hd : (s.data.filter Char.isDigit).isEmpty = true
    · rw [if_pos hd]
      exact ⟨none, rfl⟩
    · rw [if_neg hd]
      exact ⟨_, rfl⟩
  | list l => exact ⟨none, rfl⟩
  | dict entries => exact ⟨none, rfl⟩

/-- C9 (corrected): `clean_data` is **not** total — the `int()` call of
`validate_int_value` (validators.py line 61) raises an uncaught
`ValueError`/`OverflowError` on a non-finite float (the try/except of
lines 69-75 guards only the string branch), rejecting the whole record;
see the counterexample.  Totality holds once none of the five
int-validated fields (`size_m2`, `bedrooms`, `suites`, `bathrooms`,
`garage`) holds a non-finite float: every other malformed value degrades
to absence. -/
theorem C9_total_amended (d : RawRecord)
    (h1 : intSafe d.size_m2 = true) (h2 : intSafe d.bedrooms = true)
    (h3 : intSafe d.suites = true) (h4 : intSafe d.bathrooms = true)
    (h5 : intSafe d.garage = true) :
    ∃ r, clean_data d = .ok r := by
  obtain ⟨o1, e1⟩ := validate_int_value_ok d.size_m2 1 none h1
  obtain ⟨o2, e2⟩ := validate_int_value_ok d.bedrooms 0 none h2
  obtain ⟨o3, e3⟩ := validate_int_value_ok d.suites 0 none h3
  obtain ⟨o4, e4⟩ := validate_int_value_ok d.bathrooms 0 none h4
  obtain ⟨o5, e5⟩ := validate_int_value_ok d.garage 0 none h5
  rw [clean_data, e1, except_bind_ok, e2, except_bind_ok, e3, except_bind_ok,
      e4, except_bind_ok, e5, except_bind_ok]
  exact ⟨_, rfl⟩

/-- The raw record of the C9 counterexample: `size_m2` holds `float('nan')`. -/
def c9CexRaw : RawRecord := { size_m2 := .float .nan }

/-- C9 counterexample: a NaN `size_m2` makes `clean_data` raise an
uncaught `ValueError` instead of degrading the field to absence. -/
theorem C9_counterexample :
    clean_data c9CexRaw =
      .error "ValueError: cannot convert float NaN to integer" := rfl

/-- C9 witness: on a concrete int-safe record, `clean_data` returns. -/
theorem C9_witness : ∃ r, clean_data {} = .ok r :=
  C9_total_amended {} rfl rfl rfl rfl rfl


/-! ## Claim C10 -/

theorem intBounds_of (n min_val : Int) (max_val : Option Int)
    (hmi : min_val ≤ n) (hma : ∀ m, max_val = some m → n ≤ m) :
    intBounds n min_val max_val = some n := by
  rw [intBounds.eq_def, if_pos hmi]
  cases hm : max_val with
  | none => rfl
  | some m =>
    show (if n ≤ m then some n else none) = some n
    rw [if_pos (hma m hm)]

/-- C10 (confirmed): on a string holding at least one digit character,
`validate_int_value` returns the integer formed by concatenating the
digit characters in order (every non-digit, including a minus sign,
discarded by the `\D` substitution of validators.py line 67) whenever
that integer meets the bounds; in particular a raw `bedrooms` of `"-3"`
cleans to `3`, not to absence. -/
theorem C10_int_digit_concat :
    (∀ (s : String) (min_val : Int) (max_val : Option Int),
      s.data.filter Char.isDigit ≠ [] →
      min_val ≤ (natOfDigits (s.data.filter Char.isDigit) : Int) →
      (∀ m, max_val = some m →
        (natOfDigits (s.data.filter Char.isDigit) : Int) ≤ m) →
      validate_int_value (.str s) min_val max_val =
        .ok (some (natOfDigits (s.data.filter Char.isDigit)))) ∧
    (clean_data { bedrooms := .str "-3" }).toOption.map Record.bedrooms =
      some (some 3) := by
  constructor
  · intro s min_val max_val hne hmi hma
    have e : validate_int_value (.str s) min_val max_val =
        (if (s.data.filter Char.isDigit).isEmpty then Except.ok none
         else .ok (intBounds (natOfDigits (s.data.filter Char.isDigit))
           min_val max_val)) := rfl
    have hne2 : ¬((s.data.filter Char.isDigit).isEmpty = true) := by
      simp only [List.isEmpty_iff]
      exact hne
    rw [e, if_neg hne2, intBounds_of _ _ _ hmi hma]
  · rfl

/-- C10 witness: the string `"-3"` validates to the positive integer 3. -/
theorem C10_witness :
    validate_int_value (.str "-3") 0 none = .ok (some 3) :=
  C10_int_digit_concat.1 "-3" 0 none (by decide) (by decide)
    (fun m hm => Option.noConfusion hm)


/-! ## Claim C3 -/

/-- C3 (corrected): `clean_data` is **not** idempotent as stated — the
repair branches of `validate_url` (validators.py lines 95-98) can return
a URL that itself fails revalidation (e.g. `//x` becomes `https://x`,
whose one-label host the regex rejects, so a second cleaning drops it —
see the counterexample).  Idempotence holds whenever the first cleaning's
`url`, location `map_link` and image entries are each stable under
`validate_url`; every other field rule is idempotent unconditionally. -/
theorem C3_idempotent_amended (d : RawRecord) (r : Record)
    (h : clean_data d = .ok r)
    (hu : validate_url (optStrVal r.url) = r.url)
    (hm : validate_url (optStrVal r.location.map_link) = r.location.map_link)
    (hi : ∀ s ∈ r.images, validate_url (.str s) = some s) :
    clean_data r.toRaw = .ok r :=
  clean_data_roundtrip d r h hu hm hi

/-- The raw record of the C3 counterexample: a protocol-relative URL. -/
def c3CexRaw : RawRecord := { url := .str "//x" }

/-- C3 counterexample: cleaning once repairs the url to `https://x`;
cleaning the cleaned record again drops it, so the two passes differ. -/
theorem C3_counterexample :
    (clean_data c3CexRaw).toOption.map Record.url = some (some "https://x") ∧
    ((clean_data c3CexRaw).toOption.bind
      (fun r => (clean_data r.toRaw).toOption)).map Record.url = some none := by
  constructor <;> rfl

/-- The cleaned record of the C3 witness. -/
def c3wRec : Record :=
  { url := none, scraped_at := .none, property_type := none, category := none,
    modality := none, price := none, size_m2 := none, bedrooms := none,
    suites := none, bathrooms := none, garage := none, location := {},
    description := none, advertiser_code := none, vivareal_code := none,
    images := [] }

/-- C3 witness: re-cleaning a concrete cleaned record reproduces it. -/
theorem C3_witness : clean_data (Record.toRaw c3wRec) = .ok c3wRec :=
  C3_idempotent_amended {} c3wRec rfl rfl rfl
    (fun s hs => absurd hs (List.not_mem_nil s))


/-! ## Claim C4 -/

theorem scrapeRaw_url (url : String) (env : ScrapeEnv) :
    (scrapeRaw url env).1.url = .str url := rfl

/-- C4 (confirmed): on every successful `scrape` call, the returned
record's `url` equals the requested URL passed through `validate_url`
(the raw dict stores the request verbatim at scraper.py line 213, and
`clean_data` normalizes it at validators.py line 119). -/
theorem C4_url_matches_request (url : String) (env : ScrapeEnv) (r : Record)
    (h : scrape url env = .ok r) :
    r.url = validate_url (.str url) := by
  have h2 : clean_data (scrapeRaw url env).1 = .ok r := h
  obtain ⟨hu, -, -⟩ := clean_data_ok_proj (scrapeRaw url env).1 r h2
  rw [hu, scrapeRaw_url]

/-- The extraction environment of the C4 witness. -/
def c4wEnv : ScrapeEnv := { scraped_at := "t" }

/-- The cleaned record of the C4 witness. -/
def c4wRec : Record :=
  { url := some "https://a.com", scraped_at := .str "t", property_type := none,
    category := none, modality := none, price := none, size_m2 := none,
    bedrooms := none, suites := none, bathrooms := none, garage := none,
    location := {}, description := none, advertiser_code := none,
    vivareal_code := none, images := [] }

/-- C4 witness: a concrete successful scrape returns the requested URL. -/
theorem C4_witness : c4wRec.url = validate_url (.str "https://a.com") :=
  C4_url_matches_request "https://a.com" c4wEnv c4wRec rfl

/-! ## Claim C8 -/

/-- C8 (confirmed): the scraper performs exactly one re-extraction pass
precisely when all three essential fields of the initial extraction are
absent (`property_type = None`, `price = None`, `location.city = None` —
the count of scraper.py lines 234-237 is then 0), and none otherwise. -/
theorem C8_reextract_pass (url : String) (env : ScrapeEnv) :
    (scrapeRaw url env).2 =
      (if env.property_type1 = none ∧ env.price1 = none ∧
          env.location1.city = none then 1 else 0) := by
  have e : (scrapeRaw url env).2 =
      (if ((if env.property_type1 ≠ none then 1 else 0) +
          (if env.price1 ≠ none then 1 else 0) +
          (if env.location1.city ≠ none then 1 else 0) : Nat) = 0
        then 1 else 0) := rfl
  rw [e]
  by_cases h1 : env.property_type1 = none <;>
    by_cases h2 : env.price1 = none <;>
    by_cases h3 : env.location1.city = none <;>
    simp [h1, h2, h3]


/-! ## Claim C5 -/

theorem ai_field_charS (cur new : Option String)
    (h : (if truthyS new && !truthyS cur then new else cur) ≠ cur) :
    truthyS cur = false ∧
      (if truthyS new && !truthyS cur then new else cur) = new := by
  by_cases hc : (truthyS new && !truthyS cur) = true
  · rw [if_pos hc] at h ⊢
    rw [Bool.and_eq_true] at hc
    exact ⟨by simpa using hc.2, rfl⟩
  · rw [if_neg hc] at h
    exact absurd rfl h

theorem mergeAiLocation_city_cases (loc ai : Loc) :
    (mergeAiLocation loc ai).city = loc.city ∨
    ∃ c s, ai.city = some c ∧ loc.city = some s ∧ s.length < c.length ∧
      (mergeAiLocation loc ai).city = some c := by
  cases hac : ai.city with
  | none =>
    left
    have e : mergeAiLocation loc ai = mergeRestAi loc ai := by
      rw [mergeAiLocation, hac]
    rw [e]
    rfl
  | some c =>
    have e : mergeAiLocation loc ai =
        (if (!c.data.isEmpty) = true then
          (match loc.city with
           | none => loc
           | some s =>
             mergeRestAi (if s.length < c.length then { loc with city := some c }
               else loc) ai)
         else mergeRestAi loc ai) := by
      rw [mergeAiLocation, hac]
    by_cases hce : (!c.data.isEmpty) = true
    · rw [e, if_pos hce]
      cases hlc : loc.city with
      | none =>
        left
        exact hlc
      | some s =>
        have e2 : (match (some s : Option String) with
            | none => loc
            | some s =>
              mergeRestAi (if s.length < c.length then { loc with city := some c }
                else loc) ai) =
            mergeRestAi (if s.length < c.length then { loc with city := some c }
              else loc) ai := rfl
        rw [e2]
        by_cases hlen : s.length < c.length
        · rw [if_pos hlen]
          right
          exact ⟨c, s, rfl, rfl, hlen, rfl⟩
        · rw [if_neg hlen]
          left
          exact hlc
    · rw [e, if_neg hce]
      left
      rfl

theorem mergeAiLocation_city_longer (loc ai : Loc) (c s : String)
    (hac : ai.city = some c) (hlc : loc.city = some s)
    (hlen : s.length < c.length) :
    (mergeAiLocation loc ai).city = some c := by
  have hce : (!c.data.isEmpty) = true := by
    cases hb : c.data.isEmpty
    · rfl
    · rw [List.isEmpty_iff] at hb
      rw [show c.length = c.data.length from rfl, hb] at hlen
      exact absurd hlen (by simp)
  have e : mergeAiLocation loc ai =
      (if (!c.data.isEmpty) = true then
        (match loc.city with
         | none => loc
         | some s =>
           mergeRestAi (if s.length < c.length then { loc with city := some c }
             else loc) ai)
       else mergeRestAi loc ai) := by
    rw [mergeAiLocation, hac]
  rw [e, if_pos hce, hlc]
  show (mergeRestAi (if s.length < c.length then { loc with city := some c }
    else loc) ai).city = some c
  rw [if_pos hlen]
  rfl

theorem mergeAiLocation_link_cases (loc ai : Loc)
    (h : (mergeAiLocation loc ai).map_link ≠ loc.map_link) :
    ∃ u, ai.map_link = some u ∧ pyIn "google.com/maps" u = true ∧
      (mergeAiLocation loc ai).map_link = some u := by
  rcases mergeAiLocation_cases loc ai with hc | hc | ⟨c, hac, hc⟩ <;> rw [hc] at h ⊢
  · exact absurd rfl h
  · rcases mergeRestAi_link loc ai with hl | ⟨u, ha, hg, hl⟩
    · exact absurd hl h
    · exact ⟨u, ha, hg, hl⟩
  · rcases mergeRestAi_link { loc with city := some c } ai with hl | ⟨u, ha, hg, hl⟩
    · exact absurd hl h
    · exact ⟨u, ha, hg, hl⟩

/-- C5 (corrected): in the AI merge (extractors.py lines 366-378) the
absence rule holds for `neighborhood`, `street`, `number` and `zipcode`
(each changes only when the existing value is falsy, and then to the AI
value), and the city rule holds (the city changes only to a strictly
longer AI city, and a strictly longer truthy AI city does replace it);
an accepted AI `map_link` is indeed always Google-Maps-marked — **but**
the only-when-absent rule does not extend to `map_link`: a Google-marked
AI link overwrites an existing, present map link unconditionally
(extractors.py line 376), see the counterexample. -/
theorem C5_ai_merge_amended (loc ai : Loc) :
    ((mergeAiLocation loc ai).neighborhood ≠ loc.neighborhood →
      truthyS loc.neighborhood = false ∧
      (mergeAiLocation loc ai).neighborhood = ai.neighborhood) ∧
    ((mergeAiLocation loc ai).street ≠ loc.street →
      truthyS loc.street = false ∧
      (mergeAiLocation loc ai).street = ai.street) ∧
    ((mergeAiLocation loc ai).number ≠ loc.number →
      truthyS loc.number = false ∧
      (mergeAiLocation loc ai).number = ai.number) ∧
    ((mergeAiLocation loc ai).zipcode ≠ loc.zipcode →
      truthyS loc.zipcode = false ∧
      (mergeAiLocation loc ai).zipcode = ai.zipcode) ∧
    ((mergeAiLocation loc ai).city ≠ loc.city →
      ∃ c s, ai.city = some c ∧ loc.city = some s ∧ s.length < c.length ∧
        (mergeAiLocation loc ai).city = some c) ∧
    (∀ c s, ai.city = some c → loc.city = some s → s.length < c.length →
      (mergeAiLocation loc ai).city = some c) ∧
    ((mergeAiLocation loc ai).map_link ≠ loc.map_link →
      ∃ u, ai.map_link = some u ∧ pyIn "google.com/maps" u = true ∧
        (mergeAiLocation loc ai).map_link = some u) := by
  refine ⟨?_, ?_, ?_, ?_, ?_, ?_, ?_⟩
  · intro h
    rcases mergeAiLocation_cases loc ai with hc | hc | ⟨c, hac, hc⟩ <;>
      rw [hc] at h ⊢
    · exact absurd rfl h
    · exact ai_field_charS loc.neighborhood ai.neighborhood h
    · exact ai_field_charS loc.neighborhood ai.neighborhood h
  · intro h
    rcases mergeAiLocation_cases loc ai with hc | hc | ⟨c, hac, hc⟩ <;>
      rw [hc] at h ⊢
    · exact absurd rfl h
    · exact ai_field_charS loc.street ai.street h
    · exact ai_field_charS loc.street ai.street h
  · intro h
    rcases mergeAiLocation_cases loc ai with hc | hc | ⟨c, hac, hc⟩ <;>
      rw [hc] at h ⊢
    · exact absurd rfl h
    · exact ai_field_charS loc.number ai.number h
    · exact ai_field_charS loc.number ai.number h
  · intro h
    rcases mergeAiLocation_cases loc ai with hc | hc | ⟨c, hac, hc⟩ <;>
      rw [hc] at h ⊢
    · exact absurd rfl h
    · exact ai_field_charS loc.zipcode ai.zipcode h
    · exact ai_field_charS loc.zipcode ai.zipcode h
  · intro h
    rcases mergeAiLocation_city_cases loc ai with hc | hc
    · exact absurd hc h
    · exact hc
  · exact fun c s hac hlc hlen => mergeAiLocation_city_longer loc ai c s hac hlc hlen
  · exact mergeAiLocation_link_cases loc ai

/-- The existing location of the C5 counterexample: a present map link. -/
def c5CexLoc : Loc := { map_link := some "https://maps.google.com/old" }

/-- The AI-returned partial location of the C5 counterexample. -/
def c5CexAi : Loc := { map_link := some "https://www.google.com/maps/new" }

/-- C5 counterexample: the existing `map_link` is present (truthy), yet
the Google-marked AI link overwrites it, refuting the only-when-absent
rule for `map_link`. -/
theorem C5_counterexample :
    truthyS c5CexLoc.map_link = true ∧
    (mergeAiLocation c5CexLoc c5CexAi).map_link ≠ c5CexLoc.map_link := by
  constructor
  · rfl
  · decide

/-- The AI-returned partial location of the C5 witness. -/
def c5wAi : Loc := { neighborhood := some "Centro" }

/-- C5 witness: on a concrete merge that changes the neighborhood, the
existing neighborhood was falsy and the AI value was taken. -/
theorem C5_witness :
    truthyS ({} : Loc).neighborhood = false ∧
    (mergeAiLocation {} c5wAi).neighborhood = c5wAi.neighborhood :=
  (C5_ai_merge_amended {} c5wAi).1 (by decide)


/-! ## Claim C2 -/

theorem mergeDedup_nodup (acc new : List String) (h : acc.Nodup) :
    (mergeDedup acc new).Nodup := by
  induction new generalizing acc with
  | nil => exact h
  | cons n ns ih =>
    rw [show mergeDedup acc (n :: ns) =
      mergeDedup (if n ∈ acc then acc else acc ++ [n]) ns from rfl]
    by_cases hn : n ∈ acc
    · rw [if_pos hn]
      exact ih acc h
    · rw [if_neg hn]
      exact ih (acc ++ [n]) (by simp [List.nodup_append, h, hn])

theorem mergeDedupCap_nodup (acc new : List String) (m : Nat) (h : acc.Nodup) :
    (mergeDedupCap acc new m).Nodup := by
  induction new generalizing acc with
  | nil => exact h
  | cons n ns ih =>
    rw [show mergeDedupCap acc (n :: ns) m =
      mergeDedupCap (if n ∉ acc ∧ acc.length < m then acc ++ [n] else acc) ns m
      from rfl]
    by_cases hn : n ∉ acc ∧ acc.length < m
    · rw [if_pos hn]
      exact ih (acc ++ [n]) (by simp [List.nodup_append, h, hn.1])
    · rw [if_neg hn]
      exact ih acc h

theorem nodup_stage (l s : List String) (c : Prop) [Decidable c] (h : l.Nodup) :
    (if c then mergeDedup l s else l).Nodup := by
  split
  · exact mergeDedup_nodup l s h
  · exact h

theorem nodup_stage_cap (l s : List String) (m : Nat) (c : Prop) [Decidable c]
    (h : l.Nodup) : (if c then mergeDedupCap l s m else l).Nodup := by
  split
  · exact mergeDedupCap_nodup l s m h
  · exact h

theorem extract_images_nodup (m : Nat) (ai : Bool) (s1 s2 s3 s4 : List String) :
    (extract_images m ai s1 s2 s3 s4).Nodup :=
  List.Nodup.sublist (List.take_sublist m _)
    (nodup_stage_cap _ s4 m _
      (nodup_stage _ s3 _ (nodup_stage _ s2 _
        (mergeDedup_nodup [] s1 List.nodup_nil))))

/-- The query-string stripping named by the spec (`url.split('?')[0]`). -/
def stripQuery (s : String) : String := ⟨s.data.takeWhile (fun c => c != '?')⟩

/-- C2 (corrected): for a record whose raw images come from the Image
Resolver, the cleaned `images` list has length ≤ 15, the merged list is
duplicate-free under **exact** URL equality, and every entry is a
`validate_url` output of a merged entry.  The spec's stronger
post-query-string-normalization dedup fails: only strategy 3 strips
query strings (extractors.py line 739) — the merge loops compare full
URLs, so two entries differing only in their query string both survive
(see the counterexample). -/
theorem C2_images_amended (s1 s2 s3 s4 : List String) (d : RawRecord) (r : Record)
    (hd : d.images = .list ((extract_images 15 true s1 s2 s3 s4).map .str))
    (h : clean_data d = .ok r) :
    r.images.length ≤ 15 ∧
    (extract_images 15 true s1 s2 s3 s4).Nodup ∧
    ∀ u ∈ r.images, ∃ v ∈ extract_images 15 true s1 s2 s3 s4,
      validate_url (.str v) = some u := by
  obtain ⟨-, -, himg⟩ := clean_data_ok_proj d r h
  rw [hd] at himg
  refine ⟨?_, extract_images_nodup 15 true s1 s2 s3 s4, ?_⟩
  · rw [himg]
    exact cleanImages_length _
  · have himg2 : r.images =
        (((extract_images 15 true s1 s2 s3 s4).map RawVal.str).filterMap
          validate_url).take 15 := himg
    intro u hu
    rw [himg2] at hu
    have hu2 := List.mem_of_mem_take hu
    rw [List.filterMap_map] at hu2
    obtain ⟨v, hv, hfv⟩ := List.mem_filterMap.mp hu2
    exact ⟨v, hv, hfv⟩

/-- The raw record of the C2 counterexample: the resolver's strategy 1
yields the same image URL under two different query strings. -/
def c2CexRaw : RawRecord :=
  { images := .list ((extract_images 15 true
      ["http://a.com/i.jpg?x=1", "http://a.com/i.jpg?x=2"] [] [] []).map .str) }

/-- C2 counterexample: both URLs survive cleaning although they are equal
after stripping their query strings, refuting the post-normalization
dedup claimed by the spec. -/
theorem C2_counterexample :
    (clean_data c2CexRaw).toOption.map Record.images =
      some ["http://a.com/i.jpg?x=1", "http://a.com/i.jpg?x=2"] ∧
    stripQuery "http://a.com/i.jpg?x=1" = stripQuery "http://a.com/i.jpg?x=2" := by
  constructor <;> rfl

/-- The raw record of the C2 witness. -/
def c2wRaw : RawRecord :=
  { images := .list ((extract_images 15 true
      ["http://a.com/1.jpg"] [] [] []).map .str) }

/-- The cleaned record of the C2 witness. -/
def c2wRec : Record :=
  { url := none, scraped_at := .none, property_type := none, category := none,
    modality := none, price := none, size_m2 := none, bedrooms := none,
    suites := none, bathrooms := none, garage := none, location := {},
    description := none, advertiser_code := none, vivareal_code := none,
    images := ["http://a.com/1.jpg"] }

/-- C2 witness: the amended invariant at a concrete one-image run. -/
theorem C2_witness :
    c2wRec.images.length ≤ 15 ∧
    (extract_images 15 true ["http://a.com/1.jpg"] [] [] []).Nodup ∧
    ∀ u ∈ c2wRec.images, ∃ v ∈ extract_images 15 true ["http://a.com/1.jpg"] [] [] [],
      validate_url (.str v) = some u :=
  C2_images_amended ["http://a.com/1.jpg"] [] [] [] c2wRaw c2wRec rfl rfl


/-! ## Claim C7 -/

/-- The image-resolution policy as the spec words it (strategy 2 only
when strategy 1 yielded fewer than 3 results, strategy 3 only when still
fewer than 3, strategy 4 only when still **0** results and AI enabled;
merge deduplicated in first-seen order, capped at `max_images`), for
comparison with `extract_images` as translated from the source. -/
def resolve_images_spec (max_images : Nat) (use_ai : Bool)
    (s1 s2 s3 s4 : List String) : List String :=
  let images := mergeDedup [] s1
  let images := if images.length < 3 then mergeDedup images s2 else images
  let images := if images.length < 3 then mergeDedup images s3 else images
  let images :=
    if images.length = 0 ∧ use_ai then mergeDedupCap images s4 max_images
    else images
  images.take max_images

theorem take_length_le (l : List String) (m : Nat) : (l.take m).length ≤ m := by
  rw [List.length_take]
  omega

/-- C7 (confirmed): `extract_images` implements exactly the spec's
strategy-gating and merge policy (the source's strategy-4 guard
`len(images) < 1` coincides with the spec's `still 0 results`); the
spec's merge example holds, the result never exceeds `max_images`, once
strategy 1 alone yields 3 or more images the later strategies cannot
affect the result, and with AI disabled strategy 4 cannot affect it. -/
theorem C7_image_strategy_policy :
    (∀ (m : Nat) (ai : Bool) (s1 s2 s3 s4 : List String),
      extract_images m ai s1 s2 s3 s4 = resolve_images_spec m ai s1 s2 s3 s4) ∧
    extract_images 15 true ["a.jpg", "b.jpg"] ["b.jpg", "c.jpg"] [] [] =
      ["a.jpg", "b.jpg", "c.jpg"] ∧
    (∀ (m : Nat) (ai : Bool) (s1 s2 s3 s4 : List String),
      (extract_images m ai s1 s2 s3 s4).length ≤ m) ∧
    (∀ (m : Nat) (ai : Bool) (s1 s2 s2b s3 s3b s4 s4b : List String),
      3 ≤ (mergeDedup [] s1).length →
      extract_images m ai s1 s2 s3 s4 = extract_images m ai s1 s2b s3b s4b) ∧
    (∀ (m : Nat) (s1 s2 s3 s4 s4b : List String),
      extract_images m false s1 s2 s3 s4 = extract_images m false s1 s2 s3 s4b) := by
  refine ⟨?_, ?_, ?_, ?_, ?_⟩
  · intro m ai s1 s2 s3 s4
    simp only [extract_images, resolve_images_spec, Nat.lt_one_iff]
  · rfl
  · intro m ai s1 s2 s3 s4
    exact take_length_le _ m
  · intro m ai s1 s2 s2b s3 s3b s4 s4b h3
    have hc : ¬((mergeDedup [] s1).length < 3) := by omega
    have hc1 : ¬((mergeDedup [] s1).length < 1) := by omega
    simp only [extract_images, if_neg hc]
    simp [hc1]
  · intro m s1 s2 s3 s4 s4b
    simp [extract_images]

/-- C7 witness: with 3 images already from strategy 1, replacing every
later strategy output leaves the result unchanged. -/
theorem C7_witness :
    extract_images 15 true ["a.jpg", "b.jpg", "c.jpg"] ["x.jpg"] ["y.jpg"] ["z.jpg"] =
      extract_images 15 true ["a.jpg", "b.jpg", "c.jpg"] [] [] [] :=
  C7_image_strategy_policy.2.2.2.1 15 true ["a.jpg", "b.jpg", "c.jpg"]
    ["x.jpg"] [] ["y.jpg"] [] ["z.jpg"] [] (by decide)

end VivaReal
